import Mathlib

/-!
Verification model of the Pokemon ETL loader (`load_pokemon_data.py`) and the
query console (`menu.py`).

Python strings are modelled as `List Char`; machine-level details (sqlite
cursors, network sockets) are modelled by explicit state passing: the database
is a record of tables, HTTP responses are values of an environment, and the
side effects of `main` are an explicit event trace.  Fallible Python code
(`int(...)` raising `ValueError`, HTTP failures) is modelled with
`Option`/`Except`.
-/

set_option autoImplicit false

/-- Characters Python `str.strip()` (and `int()`) treat as whitespace (ASCII subset). -/
def isPySpace (c : Char) : Bool :=
  c = ' ' || c = '\t' || c = '\n' || c = '\r' || c = '\x0b' || c = '\x0c'

/-- Decimal digit test, as in Python `int` literal parsing. -/
def isDigitChar (c : Char) : Bool :=
  '0' ≤ c && c ≤ '9'

/-- Numeric value of a decimal digit character. -/
def digitVal (c : Char) : Nat :=
  c.toNat - '0'.toNat

/-- Python `str.strip()` on a character list: drop leading and trailing whitespace. -/
def stripL (l : List Char) : List Char :=
  ((l.dropWhile isPySpace).reverse.dropWhile isPySpace).reverse

/-- Remaining digits of a Python decimal `int` literal after at least one digit has
been read; `acc` is the value read so far.  A single underscore may separate two
digits (Python 3 digit grouping); anything else is a parse failure (`ValueError`). -/
def digitsRun (acc : Nat) : List Char → Option Nat
  | [] => some acc
  | c :: rest =>
    if isDigitChar c then digitsRun (acc * 10 + digitVal c) rest
    else if c = '_' then
      match rest with
      | [] => none
      | d :: rest2 => if isDigitChar d then digitsRun (acc * 10 + digitVal d) rest2 else none
    else none

/-- Unsigned part of Python `int(...)`: one digit followed by a digit run. -/
def pyNat : List Char → Option Nat
  | [] => none
  | c :: rest => if isDigitChar c then digitsRun (digitVal c) rest else none

/-- Python `int(s)` on a string: strip whitespace, optional sign, decimal digits.
`none` models `ValueError`. -/
def pyInt (l : List Char) : Option Int :=
  let t := stripL l
  if t.head? = some '-' then (pyNat t.tail).map (fun n => -(n : Int))
  else if t.head? = some '+' then (pyNat t.tail).map (fun n => (n : Int))
  else (pyNat t).map (fun n => (n : Int))

/-- Python `url.rstrip('/')`: drop all trailing slashes. -/
def rstripSlash (l : List Char) : List Char :=
  (l.reverse.dropWhile (fun c => c = '/')).reverse

/-- Python `s.split('/')` on a character list. -/
def splitSlash : List Char → List (List Char)
  | [] => [[]]
  | c :: rest =>
    if c = '/' then [] :: splitSlash rest
    else
      match splitSlash rest with
      | [] => [[c]]
      | p :: ps => (c :: p) :: ps

/-- Source `extract_pokemon_id_from_url`: strip trailing slashes, split on
slashes, parse the final segment (`parts[-1]`) as an integer.  `none` models the
`ValueError` raised by `int` on a non-numeric segment. -/
def extract_pokemon_id_from_url (url : List Char) : Option Int :=
  pyInt ((splitSlash (rstripSlash url)).getLastD [])

/-- Decimal digit character for a value below 10. -/
def digitChar (n : Nat) : Char :=
  Char.ofNat ('0'.toNat + n)

/-- Decimal rendering of a natural number, used to build concrete URLs. -/
def natChars (n : Nat) : List Char :=
  if _h : n < 10 then [digitChar n]
  else natChars (n / 10) ++ [digitChar (n % 10)]
termination_by n
decreasing_by exact Nat.div_lt_self (by omega) (by omega)

theorem digitChar_isDigit {n : Nat} (h : n < 10) : isDigitChar (digitChar n) = true := by
  interval_cases n <;> decide

theorem digitVal_digitChar {n : Nat} (h : n < 10) : digitVal (digitChar n) = n := by
  interval_cases n <;> decide

theorem natChars_ne_nil (n : Nat) : natChars n ≠ [] := by
  rw [natChars]
  split
  · simp
  · simp

theorem natChars_all_digits (n : Nat) : ∀ c ∈ natChars n, isDigitChar c = true := by
  induction n using Nat.strong_induction_on with
  | _ n ih =>
    rw [natChars]
    split
    · next h =>
      intro c hc
      simp only [List.mem_singleton] at hc
      subst hc
      exact digitChar_isDigit h
    · next h =>
      intro c hc
      rcases List.mem_append.mp hc with h1 | h2
      · exact ih (n / 10) (Nat.div_lt_self (by omega) (by omega)) c h1
      · simp only [List.mem_singleton] at h2
        subst h2
        exact digitChar_isDigit (Nat.mod_lt _ (by omega))

theorem digitsRun_nil (acc : Nat) : digitsRun acc [] = some acc := by
  rw [digitsRun.eq_def]

theorem digitsRun_cons (acc : Nat) (c : Char) (rest : List Char) :
    digitsRun acc (c :: rest) =
      if isDigitChar c then digitsRun (acc * 10 + digitVal c) rest
      else if c = '_' then
        match rest with
        | [] => none
        | d :: rest2 =>
          if isDigitChar d then digitsRun (acc * 10 + digitVal d) rest2 else none
      else none := by
  rw [digitsRun.eq_def]

/-- Running the digit parser over an append, given the first part parses. -/
theorem digitsRun_append : ∀ (xs : List Char) (acc v : Nat) (ys : List Char),
    digitsRun acc xs = some v →
    digitsRun acc (xs ++ ys) = digitsRun v ys
  | [], _acc, _v, ys, h => by
    rw [digitsRun_nil] at h
    cases h
    simp
  | c :: rest, acc, v, ys, h => by
    rw [digitsRun_cons] at h
    rw [List.cons_append, digitsRun_cons]
    by_cases hdig : isDigitChar c = true
    · rw [if_pos hdig] at h ⊢
      exact digitsRun_append rest _ v ys h
    · rw [if_neg hdig] at h ⊢
      by_cases hund : c = '_'
      · rw [if_pos hund] at h ⊢
        cases rest with
        | nil => exact Option.noConfusion h
        | cons d rest2 =>
          have h2 : (if isDigitChar d then digitsRun (acc * 10 + digitVal d) rest2
              else none) = some v := h
          show (if isDigitChar d then digitsRun (acc * 10 + digitVal d) (rest2 ++ ys)
              else none) = digitsRun v ys
          by_cases hd : isDigitChar d = true
          · rw [if_pos hd] at h2 ⊢
            exact digitsRun_append rest2 _ v ys h2
          · rw [if_neg hd] at h2
            exact Option.noConfusion h2
      · rw [if_neg hund] at h
        exact Option.noConfusion h
termination_by xs _ _ _ _ => xs.length

theorem digit_ne_slash {c : Char} (h : isDigitChar c = true) : c ≠ '/' := by
  intro he
  subst he
  exact absurd h (by decide)

theorem digit_ne_minus {c : Char} (h : isDigitChar c = true) : c ≠ '-' := by
  intro he
  subst he
  exact absurd h (by decide)

theorem digit_ne_plus {c : Char} (h : isDigitChar c = true) : c ≠ '+' := by
  intro he
  subst he
  exact absurd h (by decide)

theorem digit_not_space {c : Char} (h : isDigitChar c = true) : isPySpace c = false := by
  cases hc : isPySpace c with
  | false => rfl
  | true =>
    exfalso
    simp only [isPySpace, Bool.or_eq_true, decide_eq_true_eq] at hc
    rcases hc with ((((hc | hc) | hc) | hc) | hc) | hc <;> subst hc <;>
      exact absurd h (by decide)

theorem digitsRun_natChars : ∀ (n acc : Nat),
    digitsRun acc (natChars n) = some (acc * 10 ^ (natChars n).length + n)
  | n, acc => by
    by_cases h : n < 10
    · rw [natChars, dif_pos h, digitsRun_cons, if_pos (digitChar_isDigit h),
        digitVal_digitChar h, digitsRun_nil]
      simp
    · rw [natChars, dif_neg h]
      have ih := digitsRun_natChars (n / 10) acc
      rw [digitsRun_append (natChars (n / 10)) acc _ _ ih]
      have hm : n % 10 < 10 := Nat.mod_lt n (by omega)
      rw [digitsRun_cons, if_pos (digitChar_isDigit hm), digitVal_digitChar hm,
        digitsRun_nil, List.length_append, List.length_singleton, pow_succ, ← mul_assoc]
      congr 1
      generalize acc * 10 ^ (natChars (n / 10)).length = m
      omega
termination_by n _ => n
decreasing_by exact Nat.div_lt_self (by omega) (by omega)

theorem pyNat_natChars (n : Nat) : pyNat (natChars n) = some n := by
  have hds := natChars_all_digits n
  obtain ⟨c, rest, hcr⟩ : ∃ c rest, natChars n = c :: rest := by
    cases hh : natChars n with
    | nil => exact absurd hh (natChars_ne_nil n)
    | cons c rest => exact ⟨c, rest, rfl⟩
  have hcdig : isDigitChar c = true := hds c (by rw [hcr]; exact List.mem_cons_self _ _)
  have hrun := digitsRun_natChars n 0
  rw [hcr, digitsRun_cons, if_pos hcdig] at hrun
  simp only [Nat.zero_mul, Nat.zero_add] at hrun
  rw [hcr]
  show (if isDigitChar c then digitsRun (digitVal c) rest else none) = some n
  rw [if_pos hcdig]
  simpa using hrun

theorem dropWhile_eq_self_of {p : Char → Bool} {l : List Char}
    (h : ∀ c ∈ l, p c = false) : l.dropWhile p = l := by
  cases l with
  | nil => rfl
  | cons a t =>
    rw [List.dropWhile_cons, h a (List.mem_cons_self _ _)]
    simp

theorem stripL_eq_self {l : List Char} (h : ∀ c ∈ l, isPySpace c = false) :
    stripL l = l := by
  unfold stripL
  rw [dropWhile_eq_self_of h,
    dropWhile_eq_self_of (fun c hc => h c (List.mem_reverse.mp hc)),
    List.reverse_reverse]

theorem pyInt_natChars (n : Nat) : pyInt (natChars n) = some (n : Int) := by
  have hds := natChars_all_digits n
  have hstrip : stripL (natChars n) = natChars n :=
    stripL_eq_self (fun c hc => digit_not_space (hds c hc))
  obtain ⟨c, rest, hcr⟩ : ∃ c rest, natChars n = c :: rest := by
    cases hh : natChars n with
    | nil => exact absurd hh (natChars_ne_nil n)
    | cons c rest => exact ⟨c, rest, rfl⟩
  have hcdig : isDigitChar c = true := hds c (by rw [hcr]; exact List.mem_cons_self _ _)
  unfold pyInt
  rw [hstrip, hcr]
  simp only [List.head?_cons, Option.some.injEq]
  rw [if_neg (fun he => digit_ne_minus hcdig he), if_neg (fun he => digit_ne_plus hcdig he)]
  rw [← hcr, pyNat_natChars]
  rfl

theorem rstripSlash_append_slash (ys : List Char) :
    rstripSlash (ys ++ ['/']) = rstripSlash ys := by
  unfold rstripSlash
  rw [List.reverse_append]
  simp [List.dropWhile_cons]

theorem rstripSlash_append_of_ne {c : Char} (hc : c ≠ '/') (ys : List Char) :
    rstripSlash (ys ++ [c]) = ys ++ [c] := by
  unfold rstripSlash
  rw [List.reverse_append]
  simp only [List.reverse_singleton, List.singleton_append, List.dropWhile_cons]
  rw [decide_eq_false hc]
  simp

theorem splitSlash_ne_nil (l : List Char) : splitSlash l ≠ [] := by
  cases l with
  | nil => simp [splitSlash]
  | cons c rest =>
    rw [splitSlash]
    by_cases hc : c = '/'
    · rw [if_pos hc]
      simp
    · rw [if_neg hc]
      cases hsp : splitSlash rest with
      | nil => simp
      | cons p ps => simp

theorem splitSlash_no_slash {ys : List Char} (h : ∀ c ∈ ys, c ≠ '/') :
    splitSlash ys = [ys] := by
  induction ys with
  | nil => rfl
  | cons c rest ih =>
    rw [splitSlash, if_neg (h c (List.mem_cons_self _ _)),
      ih (fun d hd => h d (List.mem_cons_of_mem _ hd))]

theorem splitSlash_two_le (xs ys : List Char) :
    2 ≤ (splitSlash (xs ++ '/' :: ys)).length := by
  induction xs with
  | nil =>
    rw [List.nil_append, splitSlash, if_pos rfl]
    have := splitSlash_ne_nil ys
    cases hsp : splitSlash ys with
    | nil => exact absurd hsp this
    | cons p ps => simp
  | cons c rest ih =>
    rw [List.cons_append, splitSlash]
    by_cases hc : c = '/'
    · rw [if_pos hc]
      have := splitSlash_ne_nil (rest ++ '/' :: ys)
      cases hsp : splitSlash (rest ++ '/' :: ys) with
      | nil => exact absurd hsp this
      | cons p ps => simp
    · rw [if_neg hc]
      cases hsp : splitSlash (rest ++ '/' :: ys) with
      | nil => exact absurd hsp (splitSlash_ne_nil _)
      | cons p ps =>
        rw [hsp] at ih
        simp only [List.length_cons] at ih ⊢
        omega

theorem getLastD_cons_of_ne_nil {α : Type} (a : α) {L : List α} (h : L ≠ []) (d : α) :
    (a :: L).getLastD d = L.getLastD d := by
  cases L with
  | nil => exact absurd rfl h
  | cons b t => simp [List.getLastD_cons]

theorem splitSlash_getLastD (xs : List Char) {ys : List Char} (h : ∀ c ∈ ys, c ≠ '/') :
    (splitSlash (xs ++ '/' :: ys)).getLastD [] = ys := by
  induction xs with
  | nil =>
    rw [List.nil_append, splitSlash, if_pos rfl, splitSlash_no_slash h]
    simp [List.getLastD_cons]
  | cons c rest ih =>
    rw [List.cons_append, splitSlash]
    by_cases hc : c = '/'
    · rw [if_pos hc, getLastD_cons_of_ne_nil _ (splitSlash_ne_nil _) _]
      exact ih
    · rw [if_neg hc]
      have h2 := splitSlash_two_le rest ys
      cases hsp : splitSlash (rest ++ '/' :: ys) with
      | nil => exact absurd hsp (splitSlash_ne_nil _)
      | cons p ps =>
        rw [hsp] at ih h2
        have hps : ps ≠ [] := by
          intro he
          rw [he] at h2
          simp at h2
        rw [getLastD_cons_of_ne_nil _ hps _]
        rw [getLastD_cons_of_ne_nil _ hps _] at ih
        exact ih

/-- The extractor applied to a well-formed reference URL: an arbitrary prefix,
a slash, the decimal id, and a trailing slash. -/
theorem extract_id_of_wf_url (pre : List Char) (n : Nat) :
    extract_pokemon_id_from_url (pre ++ '/' :: natChars n ++ ['/']) = some (n : Int) := by
  unfold extract_pokemon_id_from_url
  have hds := natChars_all_digits n
  obtain ⟨ds, dl, hdl⟩ : ∃ ds dl, natChars n = ds ++ [dl] := by
    rcases List.eq_nil_or_concat (natChars n) with hnil | ⟨ds, dl, hc⟩
    · exact absurd hnil (natChars_ne_nil n)
    · exact ⟨ds, dl, by rw [hc, List.concat_eq_append]⟩
  have hdldig : isDigitChar dl = true := hds dl (by rw [hdl]; simp)
  have hstrip : rstripSlash (pre ++ '/' :: natChars n ++ ['/'])
      = pre ++ '/' :: natChars n := by
    have h1 : pre ++ '/' :: natChars n ++ ['/'] = (pre ++ '/' :: natChars n) ++ ['/'] := by
      simp
    rw [h1, rstripSlash_append_slash]
    have h2 : pre ++ '/' :: natChars n = (pre ++ '/' :: ds) ++ [dl] := by
      rw [hdl]
      simp
    rw [h2, rstripSlash_append_of_ne (digit_ne_slash hdldig)]
  rw [hstrip]
  rw [splitSlash_getLastD pre (fun c hc => digit_ne_slash (hds c hc))]
  exact pyInt_natChars n

/-- Outcome of collecting one typed parameter in the read-only branch of the
query console (`menu.py`, `execute_query`): a value appended to `param_values`,
a `continue` that skips the parameter, or an uncaught exception. -/
inductive ParamOutcome where
  | value (v : Int)
  | skipped
  | raising
  deriving DecidableEq

/-- Empty-input handling for an `int` parameter (`menu.py` lines 218-231,
read-only branch): empty input falls back to the declared default when there is
one, otherwise the parameter is skipped with `continue`.  The default is a
character list; `[]` models a missing (falsy) `default`. -/
def intParamInput (u0 defaultv : List Char) : Option (List Char) :=
  if u0 = [] then (if defaultv ≠ [] then some defaultv else none) else some u0

/-- Transformation of an `int` parameter (`menu.py` lines 270-280, read-only
branch): `int(user_input)`, falling back on `ValueError` to `int(default)` when
a default exists and to the literal value `0` otherwise. -/
def intTransform (u defaultv : List Char) : ParamOutcome :=
  match pyInt u with
  | some v => ParamOutcome.value v
  | none =>
    if defaultv ≠ [] then
      match pyInt defaultv with
      | some v => ParamOutcome.value v
      | none => ParamOutcome.raising
    else ParamOutcome.value 0

/-- Full handling of one `int` parameter of a read-only query: the raw user
input is stripped, empty-input fallback applied, then the type transformation. -/
def processIntParam (rawInput defaultv : List Char) : ParamOutcome :=
  match intParamInput (stripL rawInput) defaultv with
  | none => ParamOutcome.skipped
  | some u => intTransform u defaultv

/-- End state of `execute_query` for a read-only query: the parameter list that
reaches `cursor.execute`, or an abort before execution. -/
inductive ConsoleResult where
  | executed (params : List Int)
  | aborted
  deriving DecidableEq

/-- Read-only query execution with a single declared `int` parameter: collect
the parameter, then run `cursor.execute(query_to_execute, tuple(param_values))`. -/
def execute_query_int_param (rawInput defaultv : List Char) : ConsoleResult :=
  match processIntParam rawInput defaultv with
  | ParamOutcome.value v => ConsoleResult.executed [v]
  | ParamOutcome.skipped => ConsoleResult.executed []
  | ParamOutcome.raising => ConsoleResult.aborted

/-- One row per table of the sqlite schema; each table is the list of its rows
in insertion order.  Modelled from the spec: the DDL (table names and keys) is
not under src; tables and keys follow the spec's schema table (record,
category entities, height/weight, relationship rows, evolution edges). -/
structure DB where
  pokemon : List (Int × String)
  types : List (Int × String)
  stats : List (Int × String)
  moves : List (Int × String)
  dex : List (Int × String)
  height : List (Int × Int)
  weight : List (Int × Int)
  pokemon_type : List (Int × Int)
  pokemon_stat : List (Int × Int × Int)
  pokemon_move : List (Int × Int)
  pokemon_number : List (Int × Int)
  evolutions : List (Int × Int)
  deriving DecidableEq

def emptyDB : DB :=
  ⟨[], [], [], [], [], [], [], [], [], [], [], []⟩

/-- sqlite `INSERT OR IGNORE`: insert the row unless a row with the same
primary key is already present; never overwrites, never errors. -/
def insertOrIgnore {α κ : Type} [DecidableEq κ] (key : α → κ) (row : α)
    (t : List α) : List α :=
  if t.any (fun r => decide (key r = key row)) then t else t ++ [row]

/-- Source `insert_pokemon`: `INSERT OR IGNORE INTO pokemon (pokemon_id, name)`. -/
def insert_pokemon (db : DB) (pokemon_id : Int) (name : String) : DB :=
  { db with pokemon := insertOrIgnore Prod.fst (pokemon_id, name) db.pokemon }

/-- Source `insert_type`: `INSERT OR IGNORE INTO types (type_id, name)`. -/
def insert_type (db : DB) (type_id : Int) (name : String) : DB :=
  { db with types := insertOrIgnore Prod.fst (type_id, name) db.types }

/-- Source `insert_stat`: `INSERT OR IGNORE INTO stats (stat_id, name)`. -/
def insert_stat (db : DB) (stat_id : Int) (name : String) : DB :=
  { db with stats := insertOrIgnore Prod.fst (stat_id, name) db.stats }

/-- Source `insert_move`: `INSERT OR IGNORE INTO moves (move_id, name)`. -/
def insert_move (db : DB) (move_id : Int) (name : String) : DB :=
  { db with moves := insertOrIgnore Prod.fst (move_id, name) db.moves }

/-- Source `insert_dex`: `INSERT OR IGNORE INTO dex (dex_id, dex_name)`. -/
def insert_dex (db : DB) (dex_id : Int) (dex_name : String) : DB :=
  { db with dex := insertOrIgnore Prod.fst (dex_id, dex_name) db.dex }

/-- Source `insert_height`: `INSERT OR IGNORE INTO height (height_id, value)`. -/
def insert_height (db : DB) (pokemon_id height : Int) : DB :=
  { db with height := insertOrIgnore Prod.fst (pokemon_id, height) db.height }

/-- Source `insert_weight`: `INSERT OR IGNORE INTO weight (weight_id, value)`. -/
def insert_weight (db : DB) (pokemon_id weight : Int) : DB :=
  { db with weight := insertOrIgnore Prod.fst (pokemon_id, weight) db.weight }

/-- Source `insert_pokemon_type`: composite key is the whole row. -/
def insert_pokemon_type (db : DB) (pokemon_id type_id : Int) : DB :=
  { db with pokemon_type :=
      insertOrIgnore (fun r => r) (pokemon_id, type_id) db.pokemon_type }

/-- Source `insert_pokemon_stat`: key `(pokemon_id, stat_id)`, `value` a plain column. -/
def insert_pokemon_stat (db : DB) (pokemon_id stat_id value : Int) : DB :=
  { db with pokemon_stat :=
      insertOrIgnore (fun r => (r.1, r.2.1)) (pokemon_id, stat_id, value) db.pokemon_stat }

/-- Source `insert_pokemon_move`: composite key is the whole row. -/
def insert_pokemon_move (db : DB) (pokemon_id move_id : Int) : DB :=
  { db with pokemon_move :=
      insertOrIgnore (fun r => r) (pokemon_id, move_id) db.pokemon_move }

/-- Source `insert_pokemon_number`: composite key is the whole row. -/
def insert_pokemon_number (db : DB) (pokemon_id dex_id : Int) : DB :=
  { db with pokemon_number :=
      insertOrIgnore (fun r => r) (pokemon_id, dex_id) db.pokemon_number }

/-- Source `insert_evolution`: first `SELECT COUNT(*) FROM pokemon WHERE
pokemon_id IN (?, ?)`; only when the count is 2 is the edge inserted
(`INSERT OR IGNORE INTO evolutions`). -/
def insert_evolution (db : DB) (from_pokemon_id to_pokemon_id : Int) : DB :=
  let count := (db.pokemon.filter
    (fun r => decide (r.1 = from_pokemon_id ∨ r.1 = to_pokemon_id))).length
  if count = 2 then
    { db with evolutions :=
        insertOrIgnore (fun r => r) (from_pokemon_id, to_pokemon_id) db.evolutions }
  else db

/-- Source `get_loaded_pokemon_ids`: `SELECT pokemon_id FROM pokemon`. -/
def get_loaded_pokemon_ids (db : DB) : List Int :=
  db.pokemon.map Prod.fst

/-- Does `pat` occur as a prefix of the second list? -/
def hasPrefixList : List Char → List Char → Bool
  | [], _ => true
  | _ :: _, [] => false
  | p :: ps, c :: cs => p = c && hasPrefixList ps cs

/-- Python `s.replace(pat, rep)` for a nonempty pattern: replace every
non-overlapping occurrence, scanning left to right.  The structural fuel
argument is bounded by the string length (each step consumes at least one
character), keeping the function kernel-reducible. -/
def pyReplaceFuel : Nat → List Char → List Char → List Char → List Char
  | 0, s, _, _ => s
  | _ + 1, [], _, _ => []
  | fuel + 1, c :: rest, pat, rep =>
    if pat ≠ [] ∧ hasPrefixList pat (c :: rest) = true then
      rep ++ pyReplaceFuel fuel ((c :: rest).drop pat.length) pat rep
    else c :: pyReplaceFuel fuel rest pat rep

/-- Python `s.replace(pat, rep)`. -/
def pyReplace (s pat rep : List Char) : List Char :=
  pyReplaceFuel s.length s pat rep

/-- Parsed shape of one node of an upstream evolution chain document:
`{ species: { url: ... }, evolves_to: [ ... ] }`. -/
inductive Chain where
  | node (speciesUrl : List Char) (evolvesTo : List Chain)

/-- Literal `'pokemon-species'` from `collect_evolution_chain`. -/
def speciesLit : List Char := "pokemon-species".toList

/-- Literal `'pokemon'` from `collect_evolution_chain`. -/
def pokemonLit : List Char := "pokemon".toList

mutual
/-- Source `collect_evolution_chain`: derive this node's id from the species
url (with `pokemon-species` replaced by `pokemon`) via the extractor, append
the edge `(parent_id, pokemon_id)` when a parent is known, then recurse into
`evolves_to` in array order with this node's id as the new parent, threading
the accumulator.  `Except.error` models the `ValueError` of `int` propagating. -/
def collect_evolution_chain : Chain → Option Int → List (Int × Int) →
    Except Unit (List (Int × Int))
  | Chain.node url children, parentId, evolutions =>
    match extract_pokemon_id_from_url (pyReplace url speciesLit pokemonLit) with
    | none => Except.error ()
    | some pokemonId =>
      let evs := match parentId with
        | some p => evolutions ++ [(p, pokemonId)]
        | none => evolutions
      collectChildren children pokemonId evs

/-- The `for evolution in chain.get('evolves_to', [])` loop of
`collect_evolution_chain`. -/
def collectChildren : List Chain → Int → List (Int × Int) →
    Except Unit (List (Int × Int))
  | [], _, evs => Except.ok evs
  | c :: cs, pokemonId, evs =>
    match collect_evolution_chain c (some pokemonId) evs with
    | Except.error e => Except.error e
    | Except.ok evs2 => collectChildren cs pokemonId evs2
end

/-- Spec-side view of an evolution chain: nodes carrying a species id and an
ordered list of children. -/
inductive IdTree where
  | node (treeId : Int) (children : List IdTree)

mutual
/-- Spec-side edge list of a chain tree: for every node with a known parent
the ordered edge (parent-id, node-id); children in array order; the root
emits no edge for itself. -/
def specEdges : IdTree → Option Int → List (Int × Int)
  | IdTree.node i cs, parent =>
    (match parent with
      | some p => [(p, i)]
      | none => []) ++ specEdgesList cs i

/-- Edges of a forest of subtrees under a common parent, in array order. -/
def specEdgesList : List IdTree → Int → List (Int × Int)
  | [], _ => []
  | t :: ts, i => specEdges t (some i) ++ specEdgesList ts i
end

mutual
/-- A chain document represents an id tree when every node's species url
yields the node's id through the source's replace-and-extract derivation and
the children correspond pointwise in order. -/
def ChainRepr : Chain → IdTree → Prop
  | Chain.node url cs, IdTree.node i ts =>
    extract_pokemon_id_from_url (pyReplace url speciesLit pokemonLit) = some i ∧
    ChainListRepr cs ts

/-- Pointwise representation of a list of chain children. -/
def ChainListRepr : List Chain → List IdTree → Prop
  | [], [] => True
  | c :: cs, t :: ts => ChainRepr c t ∧ ChainListRepr cs ts
  | _, _ => False
end

/-- The orchestrator's `list(set(all_evolutions))`: one occurrence of each
distinct edge (this model keeps the last occurrence; CPython's set order is
unspecified). -/
def pySetList : List (Int × Int) → List (Int × Int)
  | [] => []
  | e :: rest => if e ∈ rest then pySetList rest else e :: pySetList rest

/-- Outcome of one HTTP GET as seen by the fetchers: a parsed JSON document, an
HTTP error status (`raise_for_status`), or a transport-level exception. -/
inductive HttpResp (α : Type) where
  | ok (doc : α)
  | status (code : Nat)
  | netError

/-- A `{ name, url }` reference object as it appears in nested payload fields
(`type`, `stat`, `move`, `pokedex`, `species`). -/
structure NamedRef where
  name : String
  url : List Char

/-- One element of the `stats` array: `{ stat: {name, url}, base_stat }`.
A missing `base_stat` (`stat_info.get('base_stat', 0)`) is already folded into
the integer field by the JSON layer. -/
structure StatEntry where
  stat : NamedRef
  base_stat : Int

/-- Parsed primary record document (the fields `process_pokemon` reads;
`.get(..., 0)` defaults are folded in by the JSON layer). -/
structure PokemonDoc where
  name : String
  height : Int
  weight : Int
  types : List NamedRef
  stats : List StatEntry
  moves : List NamedRef

/-- Parsed species document: `pokedex_numbers` entries (their `pokedex`
reference) and the optional `evolution_chain.url`. -/
structure SpeciesDoc where
  pokedexNumbers : List NamedRef
  evolutionChainUrl : Option (List Char)

/-- The upstream API plus the count probe, fixed for a run: responses for the
primary and species endpoints per id, the evolution-chain endpoint per url
(`none` models any caught exception, a non-2xx status or a missing/empty
`chain` member), and the count probe outcome (`none` models exhaustion of its
retries, which raises). -/
structure Env where
  pokemonHttp : Int → HttpResp PokemonDoc
  speciesHttp : Int → HttpResp SpeciesDoc
  chainDoc : List Char → Option Chain
  countResult : Option Nat

/-- Source `fetch_pokemon_data`: 404 and every other error path return `None`;
only a parsed document is returned. -/
def fetch_pokemon_data (resp : HttpResp PokemonDoc) : Option PokemonDoc :=
  match resp with
  | HttpResp.ok doc => some doc
  | HttpResp.status _ => none
  | HttpResp.netError => none

/-- Source `fetch_species_data`: same error contract as `fetch_pokemon_data`. -/
def fetch_species_data (resp : HttpResp SpeciesDoc) : Option SpeciesDoc :=
  match resp with
  | HttpResp.ok doc => some doc
  | HttpResp.status _ => none
  | HttpResp.netError => none

/-- Observable events of a run: one per sqlite mutation statement, HTTP GET,
commit, rate-limit sleep and PRAGMA. -/
inductive Ev where
  | getPokemon (pokemonId : Int)
  | getSpecies (pokemonId : Int)
  | getChain (url : List Char)
  | insPokemon (pokemonId : Int) (name : String)
  | insType (typeId : Int) (name : String)
  | insStat (statId : Int) (name : String)
  | insMove (moveId : Int) (name : String)
  | insDex (dexId : Int) (name : String)
  | insHeight (pokemonId height : Int)
  | insWeight (pokemonId weight : Int)
  | insPokemonType (pokemonId typeId : Int)
  | insPokemonStat (pokemonId statId value : Int)
  | insPokemonMove (pokemonId moveId : Int)
  | insPokemonNumber (pokemonId dexId : Int)
  | insEvolution (fromId toId : Int)
  | commit
  | sleep
  | pragmaStmt (stmt : String)
  deriving DecidableEq

/-- Effect of one event on the database state; reads, commits, sleeps and
PRAGMAs leave the row sets unchanged. -/
def applyEv (db : DB) : Ev → DB
  | Ev.insPokemon i n => insert_pokemon db i n
  | Ev.insType i n => insert_type db i n
  | Ev.insStat i n => insert_stat db i n
  | Ev.insMove i n => insert_move db i n
  | Ev.insDex i n => insert_dex db i n
  | Ev.insHeight i v => insert_height db i v
  | Ev.insWeight i v => insert_weight db i v
  | Ev.insPokemonType i t => insert_pokemon_type db i t
  | Ev.insPokemonStat i s v => insert_pokemon_stat db i s v
  | Ev.insPokemonMove i m => insert_pokemon_move db i m
  | Ev.insPokemonNumber i d => insert_pokemon_number db i d
  | Ev.insEvolution f t => insert_evolution db f t
  | _ => db

/-- Database state after a trace of events. -/
def replay (db : DB) (tr : List Ev) : DB :=
  tr.foldl applyEv db

/-- Is the event a row mutation (as opposed to a read, commit, sleep or PRAGMA)? -/
def isWriteEv : Ev → Bool
  | Ev.getPokemon _ => false
  | Ev.getSpecies _ => false
  | Ev.getChain _ => false
  | Ev.commit => false
  | Ev.sleep => false
  | Ev.pragmaStmt _ => false
  | _ => true

/-- The `for type_info in pokemon_data.get('types', [])` loop of
`process_pokemon`: per entry, extract the id from the reference url (a failure
raises and keeps the events already emitted), insert the category entity, then
the relationship row. -/
def typesTrace (pokemonId : Int) : List NamedRef → List Ev × Except Unit Unit
  | [] => ([], Except.ok ())
  | t :: rest =>
    match extract_pokemon_id_from_url t.url with
    | none => ([], Except.error ())
    | some typeId =>
      let (tr, r) := typesTrace pokemonId rest
      (Ev.insType typeId t.name :: Ev.insPokemonType pokemonId typeId :: tr, r)

/-- The `stats` loop of `process_pokemon`. -/
def statsTrace (pokemonId : Int) : List StatEntry → List Ev × Except Unit Unit
  | [] => ([], Except.ok ())
  | s :: rest =>
    match extract_pokemon_id_from_url s.stat.url with
    | none => ([], Except.error ())
    | some statId =>
      let (tr, r) := statsTrace pokemonId rest
      (Ev.insStat statId s.stat.name ::
        Ev.insPokemonStat pokemonId statId s.base_stat :: tr, r)

/-- The `moves` loop of `process_pokemon`. -/
def movesTrace (pokemonId : Int) : List NamedRef → List Ev × Except Unit Unit
  | [] => ([], Except.ok ())
  | m :: rest =>
    match extract_pokemon_id_from_url m.url with
    | none => ([], Except.error ())
    | some moveId =>
      let (tr, r) := movesTrace pokemonId rest
      (Ev.insMove moveId m.name :: Ev.insPokemonMove pokemonId moveId :: tr, r)

/-- The `pokedex_numbers` loop of `process_pokemon` (outside the chain `try`,
so an extractor failure propagates). -/
def dexTrace (pokemonId : Int) : List NamedRef → List Ev × Except Unit Unit
  | [] => ([], Except.ok ())
  | d :: rest =>
    match extract_pokemon_id_from_url d.url with
    | none => ([], Except.error ())
    | some dexId =>
      let (tr, r) := dexTrace pokemonId rest
      (Ev.insDex dexId d.name :: Ev.insPokemonNumber pokemonId dexId :: tr, r)

/-- The species-dependent tail of `process_pokemon`: dex rows, then the
evolution-chain fetch and collection inside its own `try` block, whose caught
exceptions leave the collected list empty. -/
def speciesTrace (env : Env) (pokemonId : Int) (sd : SpeciesDoc) :
    List Ev × Except Unit (List (Int × Int)) :=
  let (dtr, r) := dexTrace pokemonId sd.pokedexNumbers
  match r with
  | Except.error e => (dtr, Except.error e)
  | Except.ok _ =>
    match sd.evolutionChainUrl with
    | none => (dtr, Except.ok [])
    | some u =>
      match env.chainDoc u with
      | none => (dtr ++ [Ev.getChain u], Except.ok [])
      | some chain =>
        match collect_evolution_chain chain none [] with
        | Except.error _ => (dtr ++ [Ev.getChain u], Except.ok [])
        | Except.ok evs => (dtr ++ [Ev.getChain u], Except.ok evs)

/-- Source `process_pokemon` as an event trace plus outcome: `ok none` models
`return None` (fetch failed), `ok (some evs)` models returning the collected
evolution list, `error` models an uncaught exception escaping mid-way (events
already performed are kept). -/
def processTrace (env : Env) (pokemonId : Int) :
    List Ev × Except Unit (Option (List (Int × Int))) :=
  match fetch_pokemon_data (env.pokemonHttp pokemonId) with
  | none => ([Ev.getPokemon pokemonId], Except.ok none)
  | some doc =>
    let sres := fetch_species_data (env.speciesHttp pokemonId)
    let base := [Ev.getPokemon pokemonId, Ev.getSpecies pokemonId,
      Ev.insPokemon pokemonId doc.name,
      Ev.insHeight pokemonId doc.height,
      Ev.insWeight pokemonId doc.weight]
    let (ttr, r1) := typesTrace pokemonId doc.types
    match r1 with
    | Except.error e => (base ++ ttr, Except.error e)
    | Except.ok _ =>
      let (str2, r2) := statsTrace pokemonId doc.stats
      match r2 with
      | Except.error e => (base ++ ttr ++ str2, Except.error e)
      | Except.ok _ =>
        let (mtr, r3) := movesTrace pokemonId doc.moves
        match r3 with
        | Except.error e => (base ++ ttr ++ str2 ++ mtr, Except.error e)
        | Except.ok _ =>
          match sres with
          | none => (base ++ ttr ++ str2 ++ mtr, Except.ok (some []))
          | some sd =>
            let (sptr, r4) := speciesTrace env pokemonId sd
            match r4 with
            | Except.error e => (base ++ ttr ++ str2 ++ mtr ++ sptr, Except.error e)
            | Except.ok evs => (base ++ ttr ++ str2 ++ mtr ++ sptr, Except.ok (some evs))

/-- Outcome counters of the orchestrator loop
(`success_count`, `skipped_count`, `fail_count`). -/
structure Counters where
  success : Nat
  skipped : Nat
  failed : Nat
  deriving DecidableEq

/-- Uncaught exceptions of a run: a `ValueError` escaping the per-record
pipeline, or a user `KeyboardInterrupt`. -/
inductive RunExc where
  | valueError
  | keyboardInterrupt
  deriving DecidableEq

/-- Decrement an optional interrupt countdown. -/
def tickInterrupt : Option Nat → Option Nat
  | none => none
  | some n => some (n - 1)

/-- The `for pokemon_id in range(1, total_pokemon + 1)` loop of `main`.
`interrupt = some k` delivers a `KeyboardInterrupt` at the top of the
iteration once `k` further iterations have started; `none` means no interrupt.
An id in the resume set is counted skipped and `continue`s (no HTTP events, no
commit, no sleep).  Otherwise the per-record pipeline runs; an escaping
exception aborts the loop keeping the events performed so far; on a normal
return the counters and collected evolution edges are updated, a commit is
issued when `pokemon_id % 10 == 0`, and the rate-limit sleep follows. -/
def mainLoop (env : Env) (loaded : List Int) :
    Option Nat → List Int → Counters → List (Int × Int) →
    List Ev × Except RunExc (Counters × List (Int × Int))
  | i, l, c, evs =>
    if i = some 0 then ([], Except.error RunExc.keyboardInterrupt)
    else
      match l with
      | [] => ([], Except.ok (c, evs))
      | pokemonId :: rest =>
        if pokemonId ∈ loaded then
          mainLoop env loaded (tickInterrupt i) rest
            { c with skipped := c.skipped + 1 } evs
        else
          let (ptr, r) := processTrace env pokemonId
          match r with
          | Except.error _ => (ptr, Except.error RunExc.valueError)
          | Except.ok res =>
            let c2 := match res with
              | some _ => { c with success := c.success + 1 }
              | none => { c with failed := c.failed + 1 }
            let evs2 := match res with
              | some lv => evs ++ lv
              | none => evs
            let commitTr := if pokemonId % 10 = 0 then [Ev.commit] else []
            let (tr2, r2) := mainLoop env loaded (tickInterrupt i) rest c2 evs2
            (ptr ++ commitTr ++ Ev.sleep :: tr2, r2)

/-- The id sequence `range(1, total + 1)` as integers. -/
def idRange (total : Nat) : List Int :=
  (List.range total).map (fun (k : Nat) => (k : Int) + 1)

/-- Source `bulk_insert`: PRAGMAs relaxing durability for the bulk load. -/
def bulk_insert : List Ev :=
  [Ev.pragmaStmt "synchronous = OFF", Ev.pragmaStmt "journal_mode = MEMORY",
    Ev.pragmaStmt "cache_size = 10000", Ev.pragmaStmt "temp_store = MEMORY"]

/-- Source `restore_sqlite_settings`: PRAGMAs restoring the safe defaults. -/
def restore_sqlite_settings : List Ev :=
  [Ev.pragmaStmt "synchronous = NORMAL", Ev.pragmaStmt "journal_mode = DELETE",
    Ev.pragmaStmt "cache_size = -2000", Ev.pragmaStmt "temp_store = DEFAULT"]

/-- Body of `main`'s `try:` block: read the resume set from the starting
database, run the count probe (`none` raises after its retries), run the loop
over `1..total`, then deduplicate the accumulated edges, insert each via
`insert_evolution` and issue the final in-`try` commit.  On an uncaught
exception the events performed so far are kept. -/
def mainBody (env : Env) (db0 : DB) (interrupt : Option Nat) :
    List Ev × Except RunExc Unit :=
  let loaded := get_loaded_pokemon_ids db0
  match env.countResult with
  | none => ([], Except.error RunExc.valueError)
  | some total =>
    let (ltr, r) := mainLoop env loaded interrupt (idRange total) ⟨0, 0, 0⟩ []
    match r with
    | Except.error e => (ltr, Except.error e)
    | Except.ok (_c, evs) =>
      let uniq := pySetList evs
      (ltr ++ uniq.map (fun e => Ev.insEvolution e.1 e.2) ++ [Ev.commit],
        Except.ok ())

/-- Source `main`: the `PRAGMA foreign_keys` statement, the bulk-load PRAGMAs,
the `try:` body, and the `finally:` block — restore safe settings and a final
commit — which runs whatever the body's outcome. -/
def mainRun (env : Env) (db0 : DB) (interrupt : Option Nat) :
    List Ev × Except RunExc Unit :=
  let pre := Ev.pragmaStmt "foreign_keys = ON" :: bulk_insert
  let (btr, outcome) := mainBody env db0 interrupt
  (pre ++ btr ++ restore_sqlite_settings ++ [Ev.commit], outcome)

theorem insertOrIgnore_of_key_present {α κ : Type} [DecidableEq κ] (key : α → κ)
    (row : α) (t : List α) (h : ∃ r ∈ t, key r = key row) :
    insertOrIgnore key row t = t := by
  unfold insertOrIgnore
  rcases h with ⟨r, hr, hk⟩
  rw [if_pos (List.any_eq_true.mpr ⟨r, hr, decide_eq_true hk⟩)]

theorem insertOrIgnore_of_key_absent {α κ : Type} [DecidableEq κ] (key : α → κ)
    (row : α) (t : List α) (h : ∀ r ∈ t, key r ≠ key row) :
    insertOrIgnore key row t = t ++ [row] := by
  unfold insertOrIgnore
  rw [if_neg]
  intro hc
  rcases List.any_eq_true.mp hc with ⟨r, hr, hk⟩
  exact h r hr (of_decide_eq_true hk)

theorem subset_insertOrIgnore {α κ : Type} [DecidableEq κ] (key : α → κ)
    (row : α) (t : List α) : t ⊆ insertOrIgnore key row t := by
  unfold insertOrIgnore
  split
  · exact List.Subset.refl t
  · exact List.subset_append_left t [row]

theorem key_mem_insertOrIgnore {α κ : Type} [DecidableEq κ] (key : α → κ)
    (row : α) (t : List α) :
    key row ∈ (insertOrIgnore key row t).map key := by
  unfold insertOrIgnore
  split
  · next hany =>
    rcases List.any_eq_true.mp hany with ⟨r, hr, hk⟩
    exact List.mem_map.mpr ⟨r, hr, of_decide_eq_true hk⟩
  · exact List.mem_map.mpr ⟨row, List.mem_append_right t (List.mem_singleton_self row), rfl⟩

theorem nodup_insertOrIgnore {α κ : Type} [DecidableEq κ] (key : α → κ)
    (row : α) (t : List α) (h : (t.map key).Nodup) :
    ((insertOrIgnore key row t).map key).Nodup := by
  unfold insertOrIgnore
  split
  · exact h
  · next hany =>
    rw [List.map_append, List.map_singleton]
    refine List.Nodup.append h (List.nodup_singleton _) ?_
    intro a ha hb
    simp only [List.mem_singleton] at hb
    subst hb
    rcases List.mem_map.mp ha with ⟨r, hr, hk⟩
    exact hany (List.any_eq_true.mpr ⟨r, hr, decide_eq_true hk⟩)

theorem nodup_insertOrIgnore_id {α : Type} [DecidableEq α] (row : α) (t : List α)
    (h : t.Nodup) : (insertOrIgnore (fun r => r) row t).Nodup := by
  have h2 := nodup_insertOrIgnore (fun r : α => r) row t (by simpa using h)
  simpa using h2

/-- All key invariants the sqlite schema enforces: every table's key column(s)
are duplicate-free. -/
structure DBNodup (db : DB) : Prop where
  pokemonN : (db.pokemon.map Prod.fst).Nodup
  typesN : (db.types.map Prod.fst).Nodup
  statsN : (db.stats.map Prod.fst).Nodup
  movesN : (db.moves.map Prod.fst).Nodup
  dexN : (db.dex.map Prod.fst).Nodup
  heightN : (db.height.map Prod.fst).Nodup
  weightN : (db.weight.map Prod.fst).Nodup
  ptN : db.pokemon_type.Nodup
  psN : (db.pokemon_stat.map (fun r => (r.1, r.2.1))).Nodup
  pmN : db.pokemon_move.Nodup
  pnN : db.pokemon_number.Nodup
  evoN : db.evolutions.Nodup

theorem DBNodup_emptyDB : DBNodup emptyDB :=
  ⟨List.nodup_nil, List.nodup_nil, List.nodup_nil, List.nodup_nil,
    List.nodup_nil, List.nodup_nil, List.nodup_nil, List.nodup_nil,
    List.nodup_nil, List.nodup_nil, List.nodup_nil, List.nodup_nil⟩

theorem DBNodup_insert_evolution {db : DB} (h : DBNodup db) (f t : Int) :
    DBNodup (insert_evolution db f t) := by
  unfold insert_evolution
  dsimp only
  split
  · exact { h with evoN := nodup_insertOrIgnore_id _ _ h.evoN }
  · exact h

theorem DBNodup_applyEv {db : DB} (h : DBNodup db) (e : Ev) :
    DBNodup (applyEv db e) := by
  cases e with
  | insPokemon i n => exact { h with pokemonN := nodup_insertOrIgnore _ _ _ h.pokemonN }
  | insType i n => exact { h with typesN := nodup_insertOrIgnore _ _ _ h.typesN }
  | insStat i n => exact { h with statsN := nodup_insertOrIgnore _ _ _ h.statsN }
  | insMove i n => exact { h with movesN := nodup_insertOrIgnore _ _ _ h.movesN }
  | insDex i n => exact { h with dexN := nodup_insertOrIgnore _ _ _ h.dexN }
  | insHeight i v => exact { h with heightN := nodup_insertOrIgnore _ _ _ h.heightN }
  | insWeight i v => exact { h with weightN := nodup_insertOrIgnore _ _ _ h.weightN }
  | insPokemonType i t => exact { h with ptN := nodup_insertOrIgnore_id _ _ h.ptN }
  | insPokemonStat i s v => exact { h with psN := nodup_insertOrIgnore _ _ _ h.psN }
  | insPokemonMove i m => exact { h with pmN := nodup_insertOrIgnore_id _ _ h.pmN }
  | insPokemonNumber i d => exact { h with pnN := nodup_insertOrIgnore_id _ _ h.pnN }
  | insEvolution f t => exact DBNodup_insert_evolution h f t
  | getPokemon i => exact h
  | getSpecies i => exact h
  | getChain u => exact h
  | commit => exact h
  | sleep => exact h
  | pragmaStmt s => exact h

theorem DBNodup_replay {db : DB} (h : DBNodup db) (tr : List Ev) :
    DBNodup (replay db tr) := by
  induction tr generalizing db with
  | nil => exact h
  | cons e rest ih => exact ih (DBNodup_applyEv h e)

theorem pokemon_subset_applyEv (db : DB) (e : Ev) :
    db.pokemon ⊆ (applyEv db e).pokemon := by
  cases e with
  | insPokemon i n => exact subset_insertOrIgnore _ _ _
  | insEvolution f t =>
    show db.pokemon ⊆ (insert_evolution db f t).pokemon
    unfold insert_evolution
    dsimp only
    split
    · exact List.Subset.refl _
    · exact List.Subset.refl _
  | insType i n => exact List.Subset.refl _
  | insStat i n => exact List.Subset.refl _
  | insMove i n => exact List.Subset.refl _
  | insDex i n => exact List.Subset.refl _
  | insHeight i v => exact List.Subset.refl _
  | insWeight i v => exact List.Subset.refl _
  | insPokemonType i t => exact List.Subset.refl _
  | insPokemonStat i s v => exact List.Subset.refl _
  | insPokemonMove i m => exact List.Subset.refl _
  | insPokemonNumber i d => exact List.Subset.refl _
  | getPokemon i => exact List.Subset.refl _
  | getSpecies i => exact List.Subset.refl _
  | getChain u => exact List.Subset.refl _
  | commit => exact List.Subset.refl _
  | sleep => exact List.Subset.refl _
  | pragmaStmt s => exact List.Subset.refl _

theorem pokemon_subset_replay (tr : List Ev) :
    ∀ db : DB, db.pokemon ⊆ (replay db tr).pokemon := by
  induction tr with
  | nil => exact fun db => List.Subset.refl _
  | cons e rest ih =>
    intro db
    exact List.Subset.trans (pokemon_subset_applyEv db e) (ih (applyEv db e))

theorem loaded_mono_replay {db : DB} {tr : List Ev} {i : Int}
    (h : i ∈ get_loaded_pokemon_ids db) :
    i ∈ get_loaded_pokemon_ids (replay db tr) := by
  unfold get_loaded_pokemon_ids at h ⊢
  exact List.map_subset Prod.fst (pokemon_subset_replay tr db) h

theorem loaded_of_insPokemon_mem {tr : List Ev} {i : Int} {n : String}
    (htr : Ev.insPokemon i n ∈ tr) (db : DB) :
    i ∈ get_loaded_pokemon_ids (replay db tr) := by
  rcases List.append_of_mem htr with ⟨s, t, rfl⟩
  unfold replay
  rw [List.foldl_append, List.foldl_cons]
  have hmem : i ∈ (applyEv (replay db s) (Ev.insPokemon i n)).pokemon.map Prod.fst := by
    show i ∈ (insert_pokemon (replay db s) i n).pokemon.map Prod.fst
    unfold insert_pokemon
    exact key_mem_insertOrIgnore Prod.fst (i, n) (replay db s).pokemon
  unfold get_loaded_pokemon_ids
  exact List.map_subset Prod.fst (pokemon_subset_replay t _) hmem

theorem filter_pair_length (f t : Int) (l : List (Int × String)) :
    (l.map Prod.fst).Nodup →
    (l.filter (fun r => decide (r.1 = f ∨ r.1 = t))).length =
      (if f ∈ l.map Prod.fst then 1 else 0) +
      (if t ∈ l.map Prod.fst ∧ t ≠ f then 1 else 0) := by
  induction l with
  | nil => simp
  | cons a rest ih =>
    intro hn
    rw [List.map_cons, List.nodup_cons] at hn
    obtain ⟨ha, hrest⟩ := hn
    have ih2 := ih hrest
    rw [List.filter_cons]
    by_cases haf : a.1 = f
    · have hfn : f ∉ rest.map Prod.fst := haf ▸ ha
      rw [if_pos (decide_eq_true (Or.inl haf))]
      rw [List.length_cons, ih2, if_neg hfn]
      have hfm : f ∈ (a :: rest).map Prod.fst := by
        rw [List.map_cons, haf]
        exact List.mem_cons_self _ _
      rw [if_pos hfm]
      by_cases htm : t ∈ rest.map Prod.fst ∧ t ≠ f
      · have htm2 : t ∈ (a :: rest).map Prod.fst ∧ t ≠ f :=
          ⟨List.mem_cons_of_mem _ htm.1, htm.2⟩
        rw [if_pos htm, if_pos htm2]
      · have htm2 : ¬(t ∈ (a :: rest).map Prod.fst ∧ t ≠ f) := by
          intro ⟨hm, hne⟩
          rcases List.mem_cons.mp hm with he | hm2
          · exact hne (by rw [he, haf])
          · exact htm ⟨hm2, hne⟩
        rw [if_neg htm, if_neg htm2]
    · by_cases hat : a.1 = t
      · have htn : t ∉ rest.map Prod.fst := hat ▸ ha
        rw [if_pos (decide_eq_true (Or.inr hat))]
        rw [List.length_cons, ih2]
        have hne : t ≠ f := fun he => haf (by rw [hat, he])
        have htm2 : t ∈ (a :: rest).map Prod.fst ∧ t ≠ f :=
          ⟨by rw [List.map_cons, hat]; exact List.mem_cons_self _ _, hne⟩
        rw [if_neg (fun hc => htn (And.left hc)), if_pos htm2]
        by_cases hfm : f ∈ rest.map Prod.fst
        · have hfm2 : f ∈ (a :: rest).map Prod.fst := List.mem_cons_of_mem _ hfm
          rw [if_pos hfm, if_pos hfm2]
        · have hfm2 : f ∉ (a :: rest).map Prod.fst := by
            intro hc
            rcases List.mem_cons.mp hc with he | hm2
            · exact haf he.symm
            · exact hfm hm2
          rw [if_neg hfm, if_neg hfm2]
      · rw [if_neg (by simp [haf, hat]), ih2]
        have hfm : (f ∈ (a :: rest).map Prod.fst) ↔ (f ∈ rest.map Prod.fst) := by
          rw [List.map_cons, List.mem_cons]
          exact ⟨fun hc => hc.elim (fun he => absurd he.symm haf) id, Or.inr⟩
        have htm : (t ∈ (a :: rest).map Prod.fst) ↔ (t ∈ rest.map Prod.fst) := by
          rw [List.map_cons, List.mem_cons]
          exact ⟨fun hc => hc.elim (fun he => absurd he.symm hat) id, Or.inr⟩
        rw [show (if f ∈ (a :: rest).map Prod.fst then 1 else 0)
            = (if f ∈ rest.map Prod.fst then 1 else 0) by
          by_cases hc : f ∈ rest.map Prod.fst
          · rw [if_pos hc, if_pos (hfm.mpr hc)]
          · rw [if_neg hc, if_neg (fun hx => hc (hfm.mp hx))]]
        congr 1
        by_cases hc : t ∈ rest.map Prod.fst ∧ t ≠ f
        · rw [if_pos hc, if_pos ⟨htm.mpr hc.1, hc.2⟩]
        · rw [if_neg hc, if_neg (fun hx => hc ⟨htm.mp hx.1, hx.2⟩)]

theorem mem_insertOrIgnore_elim {α κ : Type} [DecidableEq κ] {key : α → κ}
    {row a : α} {t : List α} (h : a ∈ insertOrIgnore key row t) :
    a ∈ t ∨ a = row := by
  unfold insertOrIgnore at h
  split at h
  · exact Or.inl h
  · rcases List.mem_append.mp h with h1 | h2
    · exact Or.inl h1
    · exact Or.inr (List.mem_singleton.mp h2)

theorem insert_evolution_count_iff {db : DB}
    (hn : (db.pokemon.map Prod.fst).Nodup) (f t : Int) :
    ((db.pokemon.filter (fun r => decide (r.1 = f ∨ r.1 = t))).length = 2) ↔
      (f ≠ t ∧ f ∈ db.pokemon.map Prod.fst ∧ t ∈ db.pokemon.map Prod.fst) := by
  rw [filter_pair_length f t db.pokemon hn]
  constructor
  · intro h
    split_ifs at h with h1 h2
    · exact ⟨Ne.symm h2.2, h1, h2.1⟩
    · omega
    · omega
    · omega
  · rintro ⟨hne, hf, ht⟩
    rw [if_pos hf, if_pos ⟨ht, Ne.symm hne⟩]

theorem insert_evolution_of_valid {db : DB}
    (hn : (db.pokemon.map Prod.fst).Nodup) {f t : Int}
    (h : f ≠ t ∧ f ∈ db.pokemon.map Prod.fst ∧ t ∈ db.pokemon.map Prod.fst) :
    insert_evolution db f t =
      { db with evolutions := insertOrIgnore (fun r => r) (f, t) db.evolutions } := by
  unfold insert_evolution
  dsimp only
  rw [if_pos ((insert_evolution_count_iff hn f t).mpr h)]

theorem insert_evolution_of_invalid {db : DB}
    (hn : (db.pokemon.map Prod.fst).Nodup) {f t : Int}
    (h : ¬(f ≠ t ∧ f ∈ db.pokemon.map Prod.fst ∧ t ∈ db.pokemon.map Prod.fst)) :
    insert_evolution db f t = db := by
  unfold insert_evolution
  dsimp only
  rw [if_neg (fun hc => h ((insert_evolution_count_iff hn f t).mp hc))]

/-- Referential integrity of the evolution table: both endpoints of every
persisted edge are present in the record table. -/
def EdgeInv (db : DB) : Prop :=
  ∀ e ∈ db.evolutions,
    e.1 ∈ db.pokemon.map Prod.fst ∧ e.2 ∈ db.pokemon.map Prod.fst

theorem EdgeInv_insert_evolution {db : DB}
    (hn : (db.pokemon.map Prod.fst).Nodup) (hinv : EdgeInv db) (f t : Int) :
    EdgeInv (insert_evolution db f t) := by
  by_cases h : f ≠ t ∧ f ∈ db.pokemon.map Prod.fst ∧ t ∈ db.pokemon.map Prod.fst
  · rw [insert_evolution_of_valid hn h]
    intro e he
    rcases mem_insertOrIgnore_elim he with h1 | h2
    · exact hinv e h1
    · subst h2
      exact ⟨h.2.1, h.2.2⟩
  · rw [insert_evolution_of_invalid hn h]
    exact hinv

theorem EdgeInv_applyEv {db : DB} (hn : DBNodup db) (hinv : EdgeInv db) (e : Ev) :
    EdgeInv (applyEv db e) := by
  cases e with
  | insEvolution f t => exact EdgeInv_insert_evolution hn.pokemonN hinv f t
  | insPokemon i n =>
    intro a ha
    have h2 := hinv a ha
    constructor
    · exact List.map_subset Prod.fst (subset_insertOrIgnore _ _ _) h2.1
    · exact List.map_subset Prod.fst (subset_insertOrIgnore _ _ _) h2.2
  | insType i n => exact hinv
  | insStat i n => exact hinv
  | insMove i n => exact hinv
  | insDex i n => exact hinv
  | insHeight i v => exact hinv
  | insWeight i v => exact hinv
  | insPokemonType i t => exact hinv
  | insPokemonStat i s v => exact hinv
  | insPokemonMove i m => exact hinv
  | insPokemonNumber i d => exact hinv
  | getPokemon i => exact hinv
  | getSpecies i => exact hinv
  | getChain u => exact hinv
  | commit => exact hinv
  | sleep => exact hinv
  | pragmaStmt s => exact hinv

theorem EdgeInv_replay {db : DB} (hn : DBNodup db) (hinv : EdgeInv db)
    (tr : List Ev) : EdgeInv (replay db tr) := by
  induction tr generalizing db with
  | nil => exact hinv
  | cons e rest ih => exact ih (DBNodup_applyEv hn e) (EdgeInv_applyEv hn hinv e)

theorem mem_pySetList {l : List (Int × Int)} {e : Int × Int} :
    e ∈ pySetList l ↔ e ∈ l := by
  induction l with
  | nil => simp [pySetList]
  | cons a rest ih =>
    rw [pySetList]
    by_cases h : a ∈ rest
    · rw [if_pos h, ih, List.mem_cons]
      exact ⟨Or.inr, fun hc => hc.elim (fun he => he ▸ h) id⟩
    · rw [if_neg h, List.mem_cons, List.mem_cons, ih]

theorem pySetList_nodup (l : List (Int × Int)) : (pySetList l).Nodup := by
  induction l with
  | nil => exact List.nodup_nil
  | cons a rest ih =>
    rw [pySetList]
    by_cases h : a ∈ rest
    · rw [if_pos h]
      exact ih
    · rw [if_neg h]
      exact List.nodup_cons.mpr ⟨fun hc => h (mem_pySetList.mp hc), ih⟩

theorem evolutions_nodup_insert_evolution {db : DB} (h : db.evolutions.Nodup)
    (f t : Int) : (insert_evolution db f t).evolutions.Nodup := by
  unfold insert_evolution
  dsimp only
  split
  · exact nodup_insertOrIgnore_id _ _ h
  · exact h

theorem evolutions_nodup_fold (l : List (Int × Int)) :
    ∀ db : DB, db.evolutions.Nodup →
    ((l.foldl (fun d e => insert_evolution d e.1 e.2) db)).evolutions.Nodup := by
  induction l with
  | nil => exact fun db h => h
  | cons a rest ih =>
    intro db h
    rw [List.foldl_cons]
    exact ih _ (evolutions_nodup_insert_evolution h a.1 a.2)

theorem collect_chain_node (url : List Char) (children : List Chain)
    (parentId : Option Int) (evolutions : List (Int × Int)) :
    collect_evolution_chain (Chain.node url children) parentId evolutions =
      match extract_pokemon_id_from_url (pyReplace url speciesLit pokemonLit) with
      | none => Except.error ()
      | some pokemonId =>
        collectChildren children pokemonId
          (match parentId with
            | some p => evolutions ++ [(p, pokemonId)]
            | none => evolutions) := by
  rw [collect_evolution_chain.eq_def]

theorem collectChildren_nil (pokemonId : Int) (evs : List (Int × Int)) :
    collectChildren [] pokemonId evs = Except.ok evs := by
  rw [collectChildren.eq_def]

theorem collectChildren_cons (c : Chain) (cs : List Chain) (pokemonId : Int)
    (evs : List (Int × Int)) :
    collectChildren (c :: cs) pokemonId evs =
      match collect_evolution_chain c (some pokemonId) evs with
      | Except.error e => Except.error e
      | Except.ok evs2 => collectChildren cs pokemonId evs2 := by
  rw [collectChildren.eq_def]

theorem specEdges_node (i : Int) (cs : List IdTree) (parent : Option Int) :
    specEdges (IdTree.node i cs) parent =
      (match parent with
        | some p => [(p, i)]
        | none => []) ++ specEdgesList cs i := by
  rw [specEdges.eq_def]

theorem specEdgesList_nil (i : Int) : specEdgesList [] i = [] := by
  rw [specEdgesList.eq_def]

theorem specEdgesList_cons (t : IdTree) (ts : List IdTree) (i : Int) :
    specEdgesList (t :: ts) i = specEdges t (some i) ++ specEdgesList ts i := by
  rw [specEdgesList.eq_def]

theorem chainRepr_node {url : List Char} {cs : List Chain} {i : Int}
    {ts : List IdTree} :
    ChainRepr (Chain.node url cs) (IdTree.node i ts) ↔
      (extract_pokemon_id_from_url (pyReplace url speciesLit pokemonLit) = some i ∧
        ChainListRepr cs ts) := by
  rw [ChainRepr.eq_def]

theorem chainListRepr_cons {c : Chain} {cs : List Chain} {t : IdTree}
    {ts : List IdTree} :
    ChainListRepr (c :: cs) (t :: ts) ↔ (ChainRepr c t ∧ ChainListRepr cs ts) := by
  rw [ChainListRepr.eq_def]

mutual
theorem collect_chain_spec : ∀ (c : Chain) (t : IdTree) (p : Option Int)
    (acc : List (Int × Int)), ChainRepr c t →
    collect_evolution_chain c p acc = Except.ok (acc ++ specEdges t p)
  | Chain.node url cs, IdTree.node i ts, p, acc, h => by
    obtain ⟨hurl, hrep⟩ := chainRepr_node.mp h
    rw [collect_chain_node, hurl, specEdges_node]
    show collectChildren cs i
        (match p with
          | some q => acc ++ [(q, i)]
          | none => acc) = _
    cases p with
    | none =>
      rw [collect_children_spec cs ts i acc hrep]
      simp
    | some q =>
      rw [collect_children_spec cs ts i (acc ++ [(q, i)]) hrep]
      simp

theorem collect_children_spec : ∀ (cs : List Chain) (ts : List IdTree) (i : Int)
    (acc : List (Int × Int)), ChainListRepr cs ts →
    collectChildren cs i acc = Except.ok (acc ++ specEdgesList ts i)
  | [], [], i, acc, _ => by
    rw [collectChildren_nil, specEdgesList_nil, List.append_nil]
  | [], t :: ts, i, acc, h => by
    rw [ChainListRepr.eq_def] at h
    exact h.elim
  | c :: cs, [], i, acc, h => by
    rw [ChainListRepr.eq_def] at h
    exact h.elim
  | c :: cs, t :: ts, i, acc, h => by
    obtain ⟨h1, h2⟩ := chainListRepr_cons.mp h
    rw [collectChildren_cons, collect_chain_spec c t (some i) acc h1,
      specEdgesList_cons]
    show collectChildren cs i (acc ++ specEdges t (some i)) = _
    rw [collect_children_spec cs ts i (acc ++ specEdges t (some i)) h2]
    simp
end

theorem typesTrace_cons (pokemonId : Int) (t : NamedRef) (rest : List NamedRef) :
    typesTrace pokemonId (t :: rest) =
      match extract_pokemon_id_from_url t.url with
      | none => ([], Except.error ())
      | some typeId =>
        match typesTrace pokemonId rest with
        | (tr, r) =>
          (Ev.insType typeId t.name :: Ev.insPokemonType pokemonId typeId :: tr, r) := by
  rw [typesTrace.eq_def]

theorem statsTrace_cons (pokemonId : Int) (t : StatEntry) (rest : List StatEntry) :
    statsTrace pokemonId (t :: rest) =
      match extract_pokemon_id_from_url t.stat.url with
      | none => ([], Except.error ())
      | some statId =>
        match statsTrace pokemonId rest with
        | (tr, r) =>
          (Ev.insStat statId t.stat.name ::
            Ev.insPokemonStat pokemonId statId t.base_stat :: tr, r) := by
  rw [statsTrace.eq_def]

theorem movesTrace_cons (pokemonId : Int) (t : NamedRef) (rest : List NamedRef) :
    movesTrace pokemonId (t :: rest) =
      match extract_pokemon_id_from_url t.url with
      | none => ([], Except.error ())
      | some moveId =>
        match movesTrace pokemonId rest with
        | (tr, r) =>
          (Ev.insMove moveId t.name :: Ev.insPokemonMove pokemonId moveId :: tr, r) := by
  rw [movesTrace.eq_def]

theorem dexTrace_cons (pokemonId : Int) (t : NamedRef) (rest : List NamedRef) :
    dexTrace pokemonId (t :: rest) =
      match extract_pokemon_id_from_url t.url with
      | none => ([], Except.error ())
      | some dexId =>
        match dexTrace pokemonId rest with
        | (tr, r) =>
          (Ev.insDex dexId t.name :: Ev.insPokemonNumber pokemonId dexId :: tr, r) := by
  rw [dexTrace.eq_def]

theorem typesTrace_kinds (pokemonId : Int) (l : List NamedRef) :
    ∀ e ∈ (typesTrace pokemonId l).1, isWriteEv e = true := by
  induction l with
  | nil =>
    intro e he
    rw [typesTrace] at he
    exact absurd he (List.not_mem_nil e)
  | cons t rest ih =>
    intro e he
    rw [typesTrace_cons] at he
    cases hx : extract_pokemon_id_from_url t.url with
    | none =>
      rw [hx] at he
      exact absurd he (List.not_mem_nil e)
    | some typeId =>
      rw [hx] at he
      rcases hrec : typesTrace pokemonId rest with ⟨tr, r⟩
      rw [hrec] at he
      rcases List.mem_cons.mp he with h1 | he2
      · subst h1; rfl
      · rcases List.mem_cons.mp he2 with h2 | he3
        · subst h2; rfl
        · have := ih e
          rw [hrec] at this
          exact this he3

theorem statsTrace_kinds (pokemonId : Int) (l : List StatEntry) :
    ∀ e ∈ (statsTrace pokemonId l).1, isWriteEv e = true := by
  induction l with
  | nil =>
    intro e he
    rw [statsTrace] at he
    exact absurd he (List.not_mem_nil e)
  | cons t rest ih =>
    intro e he
    rw [statsTrace_cons] at he
    cases hx : extract_pokemon_id_from_url t.stat.url with
    | none =>
      rw [hx] at he
      exact absurd he (List.not_mem_nil e)
    | some statId =>
      rw [hx] at he
      rcases hrec : statsTrace pokemonId rest with ⟨tr, r⟩
      rw [hrec] at he
      rcases List.mem_cons.mp he with h1 | he2
      · subst h1; rfl
      · rcases List.mem_cons.mp he2 with h2 | he3
        · subst h2; rfl
        · have := ih e
          rw [hrec] at this
          exact this he3

theorem movesTrace_kinds (pokemonId : Int) (l : List NamedRef) :
    ∀ e ∈ (movesTrace pokemonId l).1, isWriteEv e = true := by
  induction l with
  | nil =>
    intro e he
    rw [movesTrace] at he
    exact absurd he (List.not_mem_nil e)
  | cons t rest ih =>
    intro e he
    rw [movesTrace_cons] at he
    cases hx : extract_pokemon_id_from_url t.url with
    | none =>
      rw [hx] at he
      exact absurd he (List.not_mem_nil e)
    | some moveId =>
      rw [hx] at he
      rcases hrec : movesTrace pokemonId rest with ⟨tr, r⟩
      rw [hrec] at he
      rcases List.mem_cons.mp he with h1 | he2
      · subst h1; rfl
      · rcases List.mem_cons.mp he2 with h2 | he3
        · subst h2; rfl
        · have := ih e
          rw [hrec] at this
          exact this he3

theorem dexTrace_kinds (pokemonId : Int) (l : List NamedRef) :
    ∀ e ∈ (dexTrace pokemonId l).1, isWriteEv e = true := by
  induction l with
  | nil =>
    intro e he
    rw [dexTrace] at he
    exact absurd he (List.not_mem_nil e)
  | cons t rest ih =>
    intro e he
    rw [dexTrace_cons] at he
    cases hx : extract_pokemon_id_from_url t.url with
    | none =>
      rw [hx] at he
      exact absurd he (List.not_mem_nil e)
    | some dexId =>
      rw [hx] at he
      rcases hrec : dexTrace pokemonId rest with ⟨tr, r⟩
      rw [hrec] at he
      rcases List.mem_cons.mp he with h1 | he2
      · subst h1; rfl
      · rcases List.mem_cons.mp he2 with h2 | he3
        · subst h2; rfl
        · have := ih e
          rw [hrec] at this
          exact this he3

theorem speciesTrace_kinds (env : Env) (pokemonId : Int) (sd : SpeciesDoc) :
    ∀ e ∈ (speciesTrace env pokemonId sd).1,
      isWriteEv e = true ∨ ∃ u, e = Ev.getChain u := by
  intro e he
  unfold speciesTrace at he
  rcases hd : dexTrace pokemonId sd.pokedexNumbers with ⟨dtr, r⟩
  rw [hd] at he
  have hdk := dexTrace_kinds pokemonId sd.pokedexNumbers
  rw [hd] at hdk
  cases r with
  | error e2 =>
    exact Or.inl (hdk e he)
  | ok u2 =>
    cases hurl : sd.evolutionChainUrl with
    | none =>
      rw [hurl] at he
      exact Or.inl (hdk e he)
    | some u =>
      rw [hurl] at he
      dsimp only at he
      have hsplit : e ∈ dtr ++ [Ev.getChain u] := by
        cases hcd : env.chainDoc u with
        | none =>
          rw [hcd] at he
          exact he
        | some chain =>
          rw [hcd] at he
          dsimp only at he
          cases hcc : collect_evolution_chain chain none [] with
          | error e3 => rw [hcc] at he; exact he
          | ok evs => rw [hcc] at he; exact he
      rcases List.mem_append.mp hsplit with h1 | h2
      · exact Or.inl (hdk e h1)
      · exact Or.inr ⟨u, List.mem_singleton.mp h2⟩

theorem processTrace_fetch_none {env : Env} {pokemonId : Int}
    (h : fetch_pokemon_data (env.pokemonHttp pokemonId) = none) :
    processTrace env pokemonId = ([Ev.getPokemon pokemonId], Except.ok none) := by
  unfold processTrace
  rw [h]

theorem processTrace_fetch_some {env : Env} {pokemonId : Int} {doc : PokemonDoc}
    (h : fetch_pokemon_data (env.pokemonHttp pokemonId) = some doc) :
    ∃ tail out, processTrace env pokemonId =
      (Ev.getPokemon pokemonId :: Ev.getSpecies pokemonId ::
        Ev.insPokemon pokemonId doc.name :: Ev.insHeight pokemonId doc.height ::
        Ev.insWeight pokemonId doc.weight :: tail, out) ∧
      (∀ e ∈ tail, isWriteEv e = true ∨ ∃ u, e = Ev.getChain u) := by
  unfold processTrace
  rw [h]
  dsimp only
  rcases h1 : typesTrace pokemonId doc.types with ⟨ttr, r1⟩
  have hk1 := typesTrace_kinds pokemonId doc.types
  rw [h1] at hk1
  dsimp only
  cases r1 with
  | error e1 =>
    refine ⟨ttr, Except.error e1, by simp, fun e he => Or.inl (hk1 e he)⟩
  | ok u1 =>
    rcases h2 : statsTrace pokemonId doc.stats with ⟨str2, r2⟩
    have hk2 := statsTrace_kinds pokemonId doc.stats
    rw [h2] at hk2
    dsimp only
    cases r2 with
    | error e2 =>
      refine ⟨ttr ++ str2, Except.error e2, by simp, ?_⟩
      intro e he
      rcases List.mem_append.mp he with hm | hm
      · exact Or.inl (hk1 e hm)
      · exact Or.inl (hk2 e hm)
    | ok u2 =>
      rcases h3 : movesTrace pokemonId doc.moves with ⟨mtr, r3⟩
      have hk3 := movesTrace_kinds pokemonId doc.moves
      rw [h3] at hk3
      dsimp only
      cases r3 with
      | error e3 =>
        refine ⟨ttr ++ (str2 ++ mtr), Except.error e3, by simp, ?_⟩
        intro e he
        rcases List.mem_append.mp he with hm | hm
        · exact Or.inl (hk1 e hm)
        · rcases List.mem_append.mp hm with hm2 | hm2
          · exact Or.inl (hk2 e hm2)
          · exact Or.inl (hk3 e hm2)
      | ok u3 =>
        cases hs : fetch_species_data (env.speciesHttp pokemonId) with
        | none =>
          refine ⟨ttr ++ (str2 ++ mtr), Except.ok (some []), by simp, ?_⟩
          intro e he
          rcases List.mem_append.mp he with hm | hm
          · exact Or.inl (hk1 e hm)
          · rcases List.mem_append.mp hm with hm2 | hm2
            · exact Or.inl (hk2 e hm2)
            · exact Or.inl (hk3 e hm2)
        | some sd =>
          dsimp only
          rcases h4 : speciesTrace env pokemonId sd with ⟨sptr, r4⟩
          have hk4 := speciesTrace_kinds env pokemonId sd
          rw [h4] at hk4
          dsimp only
          have htail : ∀ e ∈ ttr ++ (str2 ++ (mtr ++ sptr)),
              isWriteEv e = true ∨ ∃ u, e = Ev.getChain u := by
            intro e he
            rcases List.mem_append.mp he with hm | hm
            · exact Or.inl (hk1 e hm)
            · rcases List.mem_append.mp hm with hm2 | hm2
              · exact Or.inl (hk2 e hm2)
              · rcases List.mem_append.mp hm2 with hm3 | hm3
                · exact Or.inl (hk3 e hm3)
                · exact hk4 e hm3
          cases r4 with
          | error e4 =>
            exact ⟨ttr ++ (str2 ++ (mtr ++ sptr)), Except.error e4, by simp, htail⟩
          | ok evs =>
            exact ⟨ttr ++ (str2 ++ (mtr ++ sptr)), Except.ok (some evs), by simp, htail⟩

theorem getPokemon_mem_processTrace {env : Env} {pokemonId j : Int} :
    Ev.getPokemon j ∈ (processTrace env pokemonId).1 ↔ j = pokemonId := by
  constructor
  · intro hmem
    cases hf : fetch_pokemon_data (env.pokemonHttp pokemonId) with
    | none =>
      rw [processTrace_fetch_none hf] at hmem
      simp only [List.mem_singleton] at hmem
      exact Ev.getPokemon.inj hmem
    | some doc =>
      obtain ⟨tail, out, heq, hkinds⟩ := processTrace_fetch_some hf
      rw [heq] at hmem
      rcases List.mem_cons.mp hmem with h1 | hmem2
      · exact Ev.getPokemon.inj h1
      · rcases List.mem_cons.mp hmem2 with h2 | hmem3
        · exact Ev.noConfusion h2
        · rcases List.mem_cons.mp hmem3 with h3 | hmem4
          · exact Ev.noConfusion h3
          · rcases List.mem_cons.mp hmem4 with h4 | hmem5
            · exact Ev.noConfusion h4
            · rcases List.mem_cons.mp hmem5 with h5 | hmem6
              · exact Ev.noConfusion h5
              · rcases hkinds _ hmem6 with hw | ⟨u, hu⟩
                · exact absurd hw (by simp [isWriteEv])
                · exact Ev.noConfusion hu
  · intro hj
    subst hj
    cases hf : fetch_pokemon_data (env.pokemonHttp j) with
    | none =>
      rw [processTrace_fetch_none hf]
      exact List.mem_singleton_self _
    | some doc =>
      obtain ⟨tail, out, heq, _⟩ := processTrace_fetch_some hf
      rw [heq]
      exact List.mem_cons_self _ _

theorem tickInterrupt_none : tickInterrupt none = none := rfl

theorem mainLoop_interrupt (env : Env) (loaded : List Int) (l : List Int)
    (c : Counters) (evs : List (Int × Int)) :
    mainLoop env loaded (some 0) l c evs =
      ([], Except.error RunExc.keyboardInterrupt) := by
  rw [mainLoop.eq_def]
  try dsimp only
  rw [if_pos rfl]

theorem mainLoop_nil {i : Option Nat} (hi : i ≠ some 0) (env : Env)
    (loaded : List Int) (c : Counters) (evs : List (Int × Int)) :
    mainLoop env loaded i [] c evs = ([], Except.ok (c, evs)) := by
  rw [mainLoop.eq_def]
  try dsimp only
  rw [if_neg hi]

theorem mainLoop_skip {i : Option Nat} (hi : i ≠ some 0) {pokemonId : Int}
    {loaded : List Int} (hmem : pokemonId ∈ loaded) (env : Env) (rest : List Int)
    (c : Counters) (evs : List (Int × Int)) :
    mainLoop env loaded i (pokemonId :: rest) c evs =
      mainLoop env loaded (tickInterrupt i) rest
        { c with skipped := c.skipped + 1 } evs := by
  rw [mainLoop.eq_def]
  try dsimp only
  rw [if_neg hi]
  try dsimp only
  rw [if_pos hmem]

theorem mainLoop_error {env : Env} {i : Option Nat} (hi : i ≠ some 0)
    {pokemonId : Int} {loaded : List Int} (hni : pokemonId ∉ loaded)
    {ptr : List Ev} {e : Unit}
    (hp : processTrace env pokemonId = (ptr, Except.error e)) (rest : List Int)
    (c : Counters) (evs : List (Int × Int)) :
    mainLoop env loaded i (pokemonId :: rest) c evs =
      (ptr, Except.error RunExc.valueError) := by
  rw [mainLoop.eq_def]
  try dsimp only
  rw [if_neg hi]
  try dsimp only
  rw [if_neg hni]
  simp only [hp]

theorem mainLoop_process {env : Env} {i : Option Nat} (hi : i ≠ some 0)
    {pokemonId : Int} {loaded : List Int} (hni : pokemonId ∉ loaded)
    {ptr : List Ev} {res : Option (List (Int × Int))}
    (hp : processTrace env pokemonId = (ptr, Except.ok res)) (rest : List Int)
    (c : Counters) (evs : List (Int × Int)) {c2 : Counters}
    {evs2 : List (Int × Int)}
    (hc2 : c2 = (match res with
      | some _ => { c with success := c.success + 1 }
      | none => { c with failed := c.failed + 1 }))
    (hevs2 : evs2 = (match res with
      | some lv => evs ++ lv
      | none => evs)) :
    mainLoop env loaded i (pokemonId :: rest) c evs =
      (ptr ++ (if pokemonId % 10 = 0 then [Ev.commit] else []) ++
        Ev.sleep :: (mainLoop env loaded (tickInterrupt i) rest c2 evs2).1,
        (mainLoop env loaded (tickInterrupt i) rest c2 evs2).2) := by
  subst hc2
  subst hevs2
  rw [mainLoop.eq_def]
  try dsimp only
  rw [if_neg hi]
  try dsimp only
  rw [if_neg hni]
  simp only [hp]
  cases res <;> rfl

theorem none_ne_some0 : (none : Option Nat) ≠ some 0 := by simp

theorem mainLoop_cons_ok_shape {env : Env} {loaded : List Int} {a : Int}
    (ha : a ∉ loaded) {ptr : List Ev} {res : Option (List (Int × Int))}
    (hp : processTrace env a = (ptr, Except.ok res)) {rest : List Int}
    {c : Counters} {evs : List (Int × Int)} {tr : List Ev}
    {out : Counters × List (Int × Int)}
    (hml : mainLoop env loaded none (a :: rest) c evs = (tr, Except.ok out)) :
    ∃ c2 evs2 tr2, mainLoop env loaded none rest c2 evs2 = (tr2, Except.ok out) ∧
      tr = ptr ++ (if a % 10 = 0 then [Ev.commit] else []) ++ Ev.sleep :: tr2 ∧
      c2.skipped = c.skipped ∧
      (res = none → evs2 = evs) ∧ (∀ lv, res = some lv → evs2 = evs ++ lv) := by
  cases res with
  | none =>
    rw [mainLoop_process none_ne_some0 ha hp rest c evs rfl rfl,
      tickInterrupt_none] at hml
    have h1 := congrArg Prod.fst hml
    have h2 := congrArg Prod.snd hml
    dsimp only at h1 h2
    refine ⟨{ c with failed := c.failed + 1 }, evs, _, ?_, h1.symm, rfl, fun _ => rfl,
      fun lv hlv => Option.noConfusion hlv⟩
    rw [← h2]
  | some lv0 =>
    rw [mainLoop_process none_ne_some0 ha hp rest c evs rfl rfl,
      tickInterrupt_none] at hml
    have h1 := congrArg Prod.fst hml
    have h2 := congrArg Prod.snd hml
    dsimp only at h1 h2
    refine ⟨{ c with success := c.success + 1 }, evs ++ lv0, _, ?_, h1.symm, rfl,
      fun hc => Option.noConfusion hc,
      fun lv hlv => by rw [Option.some.inj hlv]⟩
    rw [← h2]

theorem mainLoop_ok_processed {env : Env} {loaded : List Int} :
    ∀ (l : List Int) (c : Counters) (evs : List (Int × Int)) {tr : List Ev}
      {out : Counters × List (Int × Int)},
      mainLoop env loaded none l c evs = (tr, Except.ok out) →
      ∀ pid ∈ l, pid ∉ loaded →
      ∀ {doc : PokemonDoc}, fetch_pokemon_data (env.pokemonHttp pid) = some doc →
      Ev.insPokemon pid doc.name ∈ tr := by
  intro l
  induction l with
  | nil =>
    intro c evs tr out _ pid hpid
    exact absurd hpid (List.not_mem_nil _)
  | cons a rest ih =>
    intro c evs tr out hml pid hpid hnl doc hf
    by_cases ha : a ∈ loaded
    · rw [mainLoop_skip none_ne_some0 ha, tickInterrupt_none] at hml
      rcases List.mem_cons.mp hpid with rfl | hmem
      · exact absurd ha hnl
      · exact ih _ _ hml pid hmem hnl hf
    · rcases hp : processTrace env a with ⟨ptr, r⟩
      cases r with
      | error e =>
        rw [mainLoop_error none_ne_some0 ha hp rest c evs] at hml
        exact absurd (congrArg Prod.snd hml) (by simp)
      | ok res =>
        obtain ⟨c2, evs2, tr2, hrec, htr, _, _, _⟩ := mainLoop_cons_ok_shape ha hp hml
        rcases List.mem_cons.mp hpid with rfl | hmem
        · obtain ⟨tail, outp, heq, _⟩ := processTrace_fetch_some hf
          have hptr := congrArg Prod.fst (heq.symm.trans hp)
          dsimp only at hptr
          rw [htr, ← hptr]
          apply List.mem_append_left
          apply List.mem_append_left
          exact List.mem_cons_of_mem _ (List.mem_cons_of_mem _ (List.mem_cons_self _ _))
        · have hmem2 := ih _ _ hrec pid hmem hnl hf
          rw [htr]
          apply List.mem_append_right
          exact List.mem_cons_of_mem _ hmem2

theorem mainLoop_silent {env : Env} {loaded : List Int} :
    ∀ (l : List Int) (c : Counters) (evs : List (Int × Int)),
      (∀ pid ∈ l, pid ∈ loaded ∨ fetch_pokemon_data (env.pokemonHttp pid) = none) →
      ∃ tr c', mainLoop env loaded none l c evs = (tr, Except.ok (c', evs)) ∧
        ∀ e ∈ tr, isWriteEv e = false := by
  intro l
  induction l with
  | nil =>
    intro c evs _
    exact ⟨[], c, mainLoop_nil none_ne_some0 env loaded c evs,
      fun e he => absurd he (List.not_mem_nil e)⟩
  | cons a rest ih =>
    intro c evs hall
    have hall2 : ∀ pid ∈ rest, pid ∈ loaded ∨
        fetch_pokemon_data (env.pokemonHttp pid) = none :=
      fun pid hm => hall pid (List.mem_cons_of_mem a hm)
    by_cases ha : a ∈ loaded
    · obtain ⟨tr, c', hrec, hw⟩ := ih { c with skipped := c.skipped + 1 } evs hall2
      exact ⟨tr, c', by
        rw [mainLoop_skip none_ne_some0 ha, tickInterrupt_none]
        exact hrec, hw⟩
    · have hf : fetch_pokemon_data (env.pokemonHttp a) = none :=
        (hall a (List.mem_cons_self a rest)).resolve_left ha
      have hp := processTrace_fetch_none hf
      obtain ⟨tr, c', hrec, hw⟩ := ih { c with failed := c.failed + 1 } evs hall2
      refine ⟨[Ev.getPokemon a] ++ (if a % 10 = 0 then [Ev.commit] else []) ++
        Ev.sleep :: tr, c', ?_, ?_⟩
      · rw [mainLoop_process none_ne_some0 ha hp rest c evs rfl rfl,
          tickInterrupt_none, hrec]
      · intro e he
        rcases List.mem_append.mp he with hm | hm
        · rcases List.mem_append.mp hm with hm2 | hm2
          · rw [List.mem_singleton.mp hm2]
            rfl
          · split at hm2
            · rw [List.mem_singleton.mp hm2]
              rfl
            · exact absurd hm2 (List.not_mem_nil e)
        · rcases List.mem_cons.mp hm with hm2 | hm2
          · rw [hm2]
            rfl
          · exact hw e hm2

theorem mainLoop_counts {env : Env} {loaded : List Int} :
    ∀ (l : List Int) (c : Counters) (evs : List (Int × Int)) {tr : List Ev}
      {out : Counters × List (Int × Int)},
      mainLoop env loaded none l c evs = (tr, Except.ok out) →
      out.1.skipped = c.skipped +
        (l.filter (fun pid => decide (pid ∈ loaded))).length ∧
      ∀ j, (Ev.getPokemon j ∈ tr ↔ (j ∈ l ∧ j ∉ loaded)) := by
  intro l
  induction l with
  | nil =>
    intro c evs tr out hml
    rw [mainLoop_nil none_ne_some0] at hml
    have h1 := congrArg Prod.fst hml
    have h2 := congrArg Prod.snd hml
    dsimp only at h1 h2
    have hout : out = (c, evs) := (Except.ok.inj h2).symm
    constructor
    · rw [hout]
      simp
    · intro j
      rw [← h1]
      simp
  | cons a rest ih =>
    intro c evs tr out hml
    by_cases ha : a ∈ loaded
    · rw [mainLoop_skip none_ne_some0 ha, tickInterrupt_none] at hml
      obtain ⟨hcount, hmem⟩ := ih _ _ hml
      constructor
      · rw [hcount]
        rw [List.filter_cons, if_pos (decide_eq_true ha)]
        simp only [List.length_cons]
        omega
      · intro j
        rw [hmem j, List.mem_cons]
        constructor
        · rintro ⟨hm, hnl⟩
          exact ⟨Or.inr hm, hnl⟩
        · rintro ⟨hm | hm, hnl⟩
          · exact absurd (hm ▸ ha) hnl
          · exact ⟨hm, hnl⟩
    · rcases hp : processTrace env a with ⟨ptr, r⟩
      cases r with
      | error e =>
        rw [mainLoop_error none_ne_some0 ha hp rest c evs] at hml
        exact absurd (congrArg Prod.snd hml) (by simp)
      | ok res =>
        obtain ⟨c2, evs2, tr2, hrec, htr, hskip, _, _⟩ := mainLoop_cons_ok_shape ha hp hml
        obtain ⟨hcount, hmem⟩ := ih _ _ hrec
        constructor
        · rw [hcount, hskip, List.filter_cons, if_neg (by simpa using ha)]
        · intro j
          rw [htr]
          constructor
          · intro hin
            rcases List.mem_append.mp hin with hm | hm
            · rcases List.mem_append.mp hm with hm2 | hm2
              · have hj : j = a := by
                  have := @getPokemon_mem_processTrace env a j
                  rw [hp] at this
                  exact this.mp hm2
                exact ⟨hj ▸ List.mem_cons_self a rest, hj ▸ ha⟩
              · exfalso
                split at hm2
                · exact Ev.noConfusion (List.mem_singleton.mp hm2)
                · exact absurd hm2 (List.not_mem_nil _)
            · rcases List.mem_cons.mp hm with hm2 | hm2
              · exact Ev.noConfusion hm2
              · obtain ⟨hj, hnl⟩ := (hmem j).mp hm2
                exact ⟨List.mem_cons_of_mem a hj, hnl⟩
          · rintro ⟨hj, hnl⟩
            rcases List.mem_cons.mp hj with rfl | hm
            · apply List.mem_append_left
              apply List.mem_append_left
              have := @getPokemon_mem_processTrace env j j
              rw [hp] at this
              exact this.mpr rfl
            · apply List.mem_append_right
              exact List.mem_cons_of_mem _ ((hmem j).mpr ⟨hm, hnl⟩)

theorem applyEv_nonwrite {db : DB} {e : Ev} (h : isWriteEv e = false) :
    applyEv db e = db := by
  cases e with
  | insPokemon i n => exact Bool.noConfusion h
  | insType i n => exact Bool.noConfusion h
  | insStat i n => exact Bool.noConfusion h
  | insMove i n => exact Bool.noConfusion h
  | insDex i n => exact Bool.noConfusion h
  | insHeight i v => exact Bool.noConfusion h
  | insWeight i v => exact Bool.noConfusion h
  | insPokemonType i t => exact Bool.noConfusion h
  | insPokemonStat i s v => exact Bool.noConfusion h
  | insPokemonMove i m => exact Bool.noConfusion h
  | insPokemonNumber i d => exact Bool.noConfusion h
  | insEvolution f t => exact Bool.noConfusion h
  | getPokemon i => rfl
  | getSpecies i => rfl
  | getChain u => rfl
  | commit => rfl
  | sleep => rfl
  | pragmaStmt s => rfl

theorem replay_nonwrite {tr : List Ev} (h : ∀ e ∈ tr, isWriteEv e = false)
    (db : DB) : replay db tr = db := by
  induction tr generalizing db with
  | nil => rfl
  | cons e rest ih =>
    unfold replay
    rw [List.foldl_cons, applyEv_nonwrite (h e (List.mem_cons_self _ _))]
    exact ih (fun e2 he2 => h e2 (List.mem_cons_of_mem _ he2)) db

theorem replay_append (db : DB) (tr1 tr2 : List Ev) :
    replay db (tr1 ++ tr2) = replay (replay db tr1) tr2 :=
  List.foldl_append applyEv db tr1 tr2

theorem mainBody_count_none {env : Env} {db0 : DB} {i : Option Nat}
    (h : env.countResult = none) :
    mainBody env db0 i = ([], Except.error RunExc.valueError) := by
  unfold mainBody
  rw [h]

theorem mainBody_loop_error {env : Env} {db0 : DB} {i : Option Nat} {total : Nat}
    {ltr : List Ev} {e : RunExc} (h : env.countResult = some total)
    (hl : mainLoop env (get_loaded_pokemon_ids db0) i (idRange total)
      ⟨0, 0, 0⟩ [] = (ltr, Except.error e)) :
    mainBody env db0 i = (ltr, Except.error e) := by
  unfold mainBody
  rw [h]
  dsimp only
  rw [hl]

theorem mainBody_loop_ok {env : Env} {db0 : DB} {i : Option Nat} {total : Nat}
    {ltr : List Ev} {c : Counters} {evs : List (Int × Int)}
    (h : env.countResult = some total)
    (hl : mainLoop env (get_loaded_pokemon_ids db0) i (idRange total)
      ⟨0, 0, 0⟩ [] = (ltr, Except.ok (c, evs))) :
    mainBody env db0 i =
      (ltr ++ (pySetList evs).map (fun e => Ev.insEvolution e.1 e.2) ++
        [Ev.commit], Except.ok ()) := by
  unfold mainBody
  rw [h]
  dsimp only
  rw [hl]

theorem mainRun_eq (env : Env) (db0 : DB) (i : Option Nat) :
    mainRun env db0 i =
      ((Ev.pragmaStmt "foreign_keys = ON" :: bulk_insert) ++
        (mainBody env db0 i).1 ++ restore_sqlite_settings ++ [Ev.commit],
        (mainBody env db0 i).2) := by
  unfold mainRun
  rcases hb : mainBody env db0 i with ⟨btr, outcome⟩
  rfl

theorem mainRun_ok_inv {env : Env} {db0 : DB} {tr1 : List Ev}
    (h : mainRun env db0 none = (tr1, Except.ok ())) :
    ∃ total ltr c evs, env.countResult = some total ∧
      mainLoop env (get_loaded_pokemon_ids db0) none (idRange total)
        ⟨0, 0, 0⟩ [] = (ltr, Except.ok (c, evs)) ∧
      tr1 = (Ev.pragmaStmt "foreign_keys = ON" :: bulk_insert) ++
        (ltr ++ (pySetList evs).map (fun e => Ev.insEvolution e.1 e.2) ++
          [Ev.commit]) ++ restore_sqlite_settings ++ [Ev.commit] := by
  rw [mainRun_eq] at h
  have h1 := congrArg Prod.fst h
  have h2 := congrArg Prod.snd h
  dsimp only at h1 h2
  cases hc : env.countResult with
  | none =>
    rw [mainBody_count_none hc] at h2
    exact absurd h2 (by simp)
  | some total =>
    rcases hl : mainLoop env (get_loaded_pokemon_ids db0) none (idRange total)
      ⟨0, 0, 0⟩ [] with ⟨ltr, r⟩
    cases r with
    | error e =>
      rw [mainBody_loop_error hc hl] at h2
      exact absurd h2 (by simp)
    | ok cev =>
      rcases cev with ⟨c, evs⟩
      refine ⟨total, ltr, c, evs, rfl, hl, ?_⟩
      rw [← h1, mainBody_loop_ok hc hl]

/-- A nonempty ChainListRepr base case. -/
theorem chainListRepr_nil : ChainListRepr [] [] := by
  rw [ChainListRepr.eq_def]
  trivial

/-- C8: the reference extractor strips the trailing slashes of the URL and
parses the final path segment as an integer: for every URL of the form
`<prefix>/<decimal n>/` it returns `n`, and whenever the final path segment of
the slash-stripped URL does not parse as an integer it deterministically
returns no value (the `ValueError` from `int` propagates to the caller). -/
theorem c8_extractor_correct :
    (∀ (pre : List Char) (n : Nat),
      extract_pokemon_id_from_url (pre ++ '/' :: natChars n ++ ['/']) =
        some (n : Int)) ∧
    (∀ url : List Char,
      pyInt ((splitSlash (rstripSlash url)).getLastD []) = none →
      extract_pokemon_id_from_url url = none) :=
  ⟨extract_id_of_wf_url, fun _url h => h⟩

theorem c8_extractor_correct_witness :
    extract_pokemon_id_from_url
      ("https://host/x/resource-kind".toList ++ '/' :: natChars 42 ++ ['/']) =
        some (42 : Int) ∧
    pyInt ((splitSlash (rstripSlash "https://host/x/resource-kind/abc/".toList)).getLastD [])
        = none ∧
    extract_pokemon_id_from_url "https://host/x/resource-kind/abc/".toList = none :=
  ⟨c8_extractor_correct.1 "https://host/x/resource-kind".toList 42,
    by decide,
    c8_extractor_correct.2 "https://host/x/resource-kind/abc/".toList (by decide)⟩

/-- C10: in the query console's read-only branch, an `int` parameter given a
non-empty input that does not parse as an integer, with no declared default,
is substituted by the literal value 0 and the query is executed with that
value bound (the input is not rejected and the query is not aborted). -/
theorem c10_int_param_zero_fallback (rawInput : List Char)
    (hne : stripL rawInput ≠ []) (hbad : pyInt (stripL rawInput) = none) :
    processIntParam rawInput [] = ParamOutcome.value 0 ∧
    execute_query_int_param rawInput [] = ConsoleResult.executed [0] := by
  have h1 : processIntParam rawInput [] = ParamOutcome.value 0 := by
    unfold processIntParam intParamInput
    rw [if_neg hne]
    dsimp only
    unfold intTransform
    rw [hbad]
    simp
  refine ⟨h1, ?_⟩
  unfold execute_query_int_param
  rw [h1]

theorem c10_int_param_zero_fallback_witness :
    processIntParam "abc".toList [] = ParamOutcome.value 0 ∧
    execute_query_int_param "abc".toList [] = ConsoleResult.executed [0] :=
  c10_int_param_zero_fallback "abc".toList (by decide) (by decide)

/-- Database with a single record (id 1), for the C1 counterexample. -/
def dbSelf : DB := { emptyDB with pokemon := [(1, "bulbasaur")] }

/-- C1 counterexample: for the ordered pair (1, 1) both endpoint ids exist as
rows of the pokemon table of `dbSelf`, yet `insert_evolution` leaves the
database unchanged and the edge is not inserted — the `COUNT(*)` over
`pokemon_id IN (1, 1)` is 1, not 2, so the claimed "exactly when both
endpoints exist" fails on self-pairs. -/
theorem c1_counterexample :
    (1 : Int) ∈ dbSelf.pokemon.map Prod.fst ∧
    insert_evolution dbSelf 1 1 = dbSelf ∧
    ((1 : Int), (1 : Int)) ∉ (insert_evolution dbSelf 1 1).evolutions := by
  decide

/-- C1 (amended): when the record keys are duplicate-free, the evolution-edge
upsert inserts the edge exactly when the two endpoints are distinct ids that
both exist in the record table — a self-edge is silently dropped even when its
endpoint exists — and otherwise leaves the database unchanged; moreover the
upsert preserves referential integrity, so every persisted evolution edge has
both endpoints present in the record table. -/
theorem c1_edge_upsert_amended (db : DB) (f t : Int)
    (hn : (db.pokemon.map Prod.fst).Nodup) :
    (f ≠ t ∧ f ∈ db.pokemon.map Prod.fst ∧ t ∈ db.pokemon.map Prod.fst →
      insert_evolution db f t =
        { db with evolutions := insertOrIgnore (fun r => r) (f, t) db.evolutions }) ∧
    (¬(f ≠ t ∧ f ∈ db.pokemon.map Prod.fst ∧ t ∈ db.pokemon.map Prod.fst) →
      insert_evolution db f t = db) ∧
    (EdgeInv db → EdgeInv (insert_evolution db f t)) :=
  ⟨fun h => insert_evolution_of_valid hn h,
    fun h => insert_evolution_of_invalid hn h,
    fun hinv => EdgeInv_insert_evolution hn hinv f t⟩

/-- Database with two records (ids 1 and 2), for witnesses. -/
def dbTwo : DB := { emptyDB with pokemon := [(1, "bulbasaur"), (2, "ivysaur")] }

theorem c1_edge_upsert_amended_witness :
    insert_evolution dbTwo 1 2 =
      { dbTwo with evolutions := insertOrIgnore (fun r => r) (1, 2) dbTwo.evolutions } :=
  (c1_edge_upsert_amended dbTwo 1 2 (by decide)).1 (by decide)

/-- C3: on a chain document representing an id tree, the collector performs the
depth-first traversal that emits the ordered edge (parent-id, node-id) for
every node with a parent, recursing into children in array order with the
current node's id as the new parent, and emits no edge for the root; the
orchestrator's deduplication keeps exactly one occurrence of each distinct
ordered pair, and inserting the deduplicated edges leaves each edge at most
once in the evolutions table. -/
theorem c3_chain_collection (c : Chain) (t : IdTree) (p : Option Int)
    (hrep : ChainRepr c t) :
    (collect_evolution_chain c p [] = Except.ok (specEdges t p)) ∧
    (∀ l : List (Int × Int),
      (pySetList l).Nodup ∧ (∀ e, e ∈ pySetList l ↔ e ∈ l)) ∧
    (∀ (db : DB) (l : List (Int × Int)), db.evolutions.Nodup →
      ((l.foldl (fun d e => insert_evolution d e.1 e.2) db)).evolutions.Nodup) := by
  refine ⟨?_, fun l => ⟨pySetList_nodup l, fun _ => mem_pySetList⟩,
    fun db l h => evolutions_nodup_fold l db h⟩
  have h := collect_chain_spec c t p [] hrep
  simpa using h

/-- Two-node chain document 1 → 2 for the C3 witness. -/
def chainTwo : Chain :=
  Chain.node "https://pokeapi.co/api/v2/pokemon-species/1/".toList
    [Chain.node "https://pokeapi.co/api/v2/pokemon-species/2/".toList []]

/-- Id tree represented by `chainTwo`. -/
def treeTwo : IdTree := IdTree.node 1 [IdTree.node 2 []]

theorem c3_chain_collection_witness :
    collect_evolution_chain chainTwo none [] = Except.ok (specEdges treeTwo none) ∧
    specEdges treeTwo none = [((1 : Int), (2 : Int))] := by
  constructor
  · refine (c3_chain_collection chainTwo treeTwo none ?_).1
    refine chainRepr_node.mpr ⟨by decide, chainListRepr_cons.mpr
      ⟨chainRepr_node.mpr ⟨by decide, chainListRepr_nil⟩, chainListRepr_nil⟩⟩
  · simp [treeTwo, specEdges_node, specEdgesList_cons, specEdgesList_nil]

/-- C7: a 404 status on the primary fetch is mapped to `none` (Absent) rather
than an exception; the per-record pipeline then returns before any further
HTTP call or database write — replaying its trace leaves every database
unchanged — and the main loop counts the id as failed and continues with the
remaining ids after the rate-limit sleep. -/
theorem c7_404_absent (env : Env) (pokemonId : Int)
    (h404 : env.pokemonHttp pokemonId = HttpResp.status 404) :
    fetch_pokemon_data (env.pokemonHttp pokemonId) = none ∧
    processTrace env pokemonId = ([Ev.getPokemon pokemonId], Except.ok none) ∧
    (∀ db : DB, replay db [Ev.getPokemon pokemonId] = db) ∧
    (∀ (loaded rest : List Int) (c : Counters) (evs : List (Int × Int)),
      pokemonId ∉ loaded →
      mainLoop env loaded none (pokemonId :: rest) c evs =
        ([Ev.getPokemon pokemonId] ++
          (if pokemonId % 10 = 0 then [Ev.commit] else []) ++
          Ev.sleep ::
            (mainLoop env loaded none rest { c with failed := c.failed + 1 } evs).1,
          (mainLoop env loaded none rest { c with failed := c.failed + 1 } evs).2)) := by
  have hf : fetch_pokemon_data (env.pokemonHttp pokemonId) = none := by
    rw [h404]
    rfl
  refine ⟨hf, processTrace_fetch_none hf, fun _ => rfl, ?_⟩
  intro loaded rest c evs hnl
  have h := mainLoop_process none_ne_some0 hnl (processTrace_fetch_none hf)
    rest c evs rfl rfl
  rw [tickInterrupt_none] at h
  exact h

deriving instance DecidableEq for Except

def envNotFound : Env :=
  { pokemonHttp := fun _ => HttpResp.status 404,
    speciesHttp := fun _ => HttpResp.status 404,
    chainDoc := fun _ => none,
    countResult := some 1 }

theorem c7_404_absent_witness :
    fetch_pokemon_data (envNotFound.pokemonHttp 1) = none ∧
    processTrace envNotFound 1 = ([Ev.getPokemon 1], Except.ok none) ∧
    replay emptyDB [Ev.getPokemon 1] = emptyDB := by
  obtain ⟨h1, h2, h3, _⟩ := c7_404_absent envNotFound 1 rfl
  exact ⟨h1, h2, h3 emptyDB⟩

/-- C9: on every execution path of the run — normal completion, an exception
raised inside the `try:` body (count-probe exhaustion or a `ValueError`
escaping the per-record pipeline), or a user interrupt at any point of the
loop — the finalization runs: the event trace of `main` ends with the
restore-safe-settings PRAGMAs followed by a final commit. -/
theorem c9_finalization_always (env : Env) (db0 : DB) (interrupt : Option Nat) :
    ∃ body : List Ev,
      (mainRun env db0 interrupt).1 =
        (Ev.pragmaStmt "foreign_keys = ON" :: bulk_insert) ++ body ++
          restore_sqlite_settings ++ [Ev.commit] ∧
      body = (mainBody env db0 interrupt).1 :=
  ⟨(mainBody env db0 interrupt).1, by rw [mainRun_eq], rfl⟩

theorem commit_not_mem_processTrace (env : Env) (pokemonId : Int) :
    Ev.commit ∉ (processTrace env pokemonId).1 := by
  intro hmem
  cases hf : fetch_pokemon_data (env.pokemonHttp pokemonId) with
  | none =>
    rw [processTrace_fetch_none hf] at hmem
    exact Ev.noConfusion (List.mem_singleton.mp hmem)
  | some doc =>
    obtain ⟨tail, out, heq, hkinds⟩ := processTrace_fetch_some hf
    rw [heq] at hmem
    rcases List.mem_cons.mp hmem with h | hmem
    · exact Ev.noConfusion h
    rcases List.mem_cons.mp hmem with h | hmem
    · exact Ev.noConfusion h
    rcases List.mem_cons.mp hmem with h | hmem
    · exact Ev.noConfusion h
    rcases List.mem_cons.mp hmem with h | hmem
    · exact Ev.noConfusion h
    rcases List.mem_cons.mp hmem with h | hmem
    · exact Ev.noConfusion h
    rcases hkinds _ hmem with hw | ⟨u, hu⟩
    · exact Bool.noConfusion hw
    · exact Ev.noConfusion hu

def envAllLoaded : Env :=
  { pokemonHttp := fun _ => HttpResp.status 404,
    speciesHttp := fun _ => HttpResp.status 404,
    chainDoc := fun _ => none,
    countResult := some 10 }

def dbTen : DB := { emptyDB with pokemon :=
  [(1, "a"), (2, "b"), (3, "c"), (4, "d"), (5, "e"),
    (6, "f"), (7, "g"), (8, "h"), (9, "i"), (10, "j")] }

/-- C6 counterexample: with ids 1..10 all in the resume set, the loop iterates
through id 10 — an id divisible by 10 — as a skipped id and emits no event at
all: in particular no commit occurs at that point of the iteration, because
`continue` bypasses the batch-commit statement. -/
theorem c6_counterexample :
    (10 : Int) % 10 = 0 ∧
    (10 : Int) ∈ idRange 10 ∧
    (10 : Int) ∈ get_loaded_pokemon_ids dbTen ∧
    mainLoop envAllLoaded (get_loaded_pokemon_ids dbTen) none (idRange 10)
      ⟨0, 0, 0⟩ [] = ([], Except.ok (⟨0, 10, 0⟩, [])) ∧
    Ev.commit ∉ (mainLoop envAllLoaded (get_loaded_pokemon_ids dbTen) none
      (idRange 10) ⟨0, 0, 0⟩ []).1 := by
  decide

/-- C6 (amended): during the main loop a durability commit is issued exactly
after the non-skipped ids that return normally and whose id is divisible by
10; a skipped id contributes no events to the trace — in particular no commit,
even when its id is divisible by 10. -/
theorem c6_batch_commit_amended (env : Env) (loaded : List Int)
    (pokemonId : Int) (rest : List Int) (c : Counters) (evs : List (Int × Int)) :
    (pokemonId ∈ loaded →
      mainLoop env loaded none (pokemonId :: rest) c evs =
        mainLoop env loaded none rest { c with skipped := c.skipped + 1 } evs) ∧
    (∀ ptr res, pokemonId ∉ loaded →
      processTrace env pokemonId = (ptr, Except.ok res) →
      ∃ c2 evs2,
        mainLoop env loaded none (pokemonId :: rest) c evs =
          (ptr ++ (if pokemonId % 10 = 0 then [Ev.commit] else []) ++
            Ev.sleep :: (mainLoop env loaded none rest c2 evs2).1,
            (mainLoop env loaded none rest c2 evs2).2) ∧
        Ev.commit ∉ ptr ∧
        (Ev.commit ∈ (if pokemonId % 10 = 0 then [Ev.commit] else []) ↔
          pokemonId % 10 = 0)) := by
  constructor
  · intro hmem
    rw [mainLoop_skip none_ne_some0 hmem, tickInterrupt_none]
  · intro ptr res hnl hp
    cases res with
    | none =>
      refine ⟨{ c with failed := c.failed + 1 }, evs, ?_, ?_, ?_⟩
      · have h := mainLoop_process none_ne_some0 hnl hp rest c evs rfl rfl
        rw [tickInterrupt_none] at h
        exact h
      · intro hc
        have := commit_not_mem_processTrace env pokemonId
        rw [hp] at this
        exact this hc
      · constructor
        · intro hin
          by_cases hz : pokemonId % 10 = 0
          · exact hz
          · rw [if_neg hz] at hin
            exact absurd hin (List.not_mem_nil _)
        · intro hz
          rw [if_pos hz]
          exact List.mem_singleton_self _
    | some lv =>
      refine ⟨{ c with success := c.success + 1 }, evs ++ lv, ?_, ?_, ?_⟩
      · have h := mainLoop_process none_ne_some0 hnl hp rest c evs rfl rfl
        rw [tickInterrupt_none] at h
        exact h
      · intro hc
        have := commit_not_mem_processTrace env pokemonId
        rw [hp] at this
        exact this hc
      · constructor
        · intro hin
          by_cases hz : pokemonId % 10 = 0
          · exact hz
          · rw [if_neg hz] at hin
            exact absurd hin (List.not_mem_nil _)
        · intro hz
          rw [if_pos hz]
          exact List.mem_singleton_self _

theorem c6_batch_commit_amended_witness :
    mainLoop envAllLoaded [(10 : Int)] none ([10] : List Int) ⟨0, 0, 0⟩ [] =
      mainLoop envAllLoaded [(10 : Int)] none [] ⟨0, 1, 0⟩ [] :=
  (c6_batch_commit_amended envAllLoaded [10] 10 [] ⟨0, 0, 0⟩ []).1 (by decide)

theorem mem_idRange {N : Nat} {j : Int} : j ∈ idRange N ↔ 1 ≤ j ∧ j ≤ (N : Int) := by
  unfold idRange
  simp only [List.mem_map, List.mem_range]
  constructor
  · rintro ⟨i, hi, rfl⟩
    omega
  · rintro ⟨h1, h2⟩
    refine ⟨(j - 1).toNat, ?_, ?_⟩ <;> omega

theorem idRange_filter_length (loaded : List Int) (k N : Nat) (hk : k ≤ N)
    (hiff : ∀ j : Int, j ∈ loaded ↔ (1 ≤ j ∧ j ≤ (k : Int))) :
    ((idRange N).filter (fun pid => decide (pid ∈ loaded))).length = k := by
  induction N with
  | zero =>
    have hz : k = 0 := by omega
    subst hz
    rfl
  | succ n ih =>
    simp only [idRange] at ih ⊢
    rw [List.range_succ, List.map_append, List.filter_append, List.length_append]
    by_cases hkn : k ≤ n
    · rw [ih hkn]
      have : ((List.map (fun (i : Nat) => (i : Int) + 1) [n]).filter
          (fun pid => decide (pid ∈ loaded))).length = 0 := by
        simp only [List.map_cons, List.map_nil, List.filter_cons, List.filter_nil]
        have hnm : ((n : Int) + 1) ∉ loaded := by
          rw [hiff]
          omega
        rw [decide_eq_false hnm]
        simp
      omega
    · have hkeq : k = n + 1 := by omega
      have hfull : ∀ m : Nat, m ≤ n →
          ((List.map (fun (i : Nat) => (i : Int) + 1) (List.range m)).filter
            (fun pid => decide (pid ∈ loaded))).length = m := by
        intro m
        induction m with
        | zero => intro _; simp
        | succ mm ihm =>
          intro hmm
          rw [List.range_succ, List.map_append, List.filter_append,
            List.length_append, ihm (by omega)]
          have hmem : ((mm : Int) + 1) ∈ loaded := by
            rw [hiff]
            omega
          simp only [List.map_cons, List.map_nil, List.filter_cons, List.filter_nil]
          rw [decide_eq_true hmem]
          simp
      rw [hfull n (by omega)]
      have hmem : ((n : Int) + 1) ∈ loaded := by
        rw [hiff]
        omega
      simp only [List.map_cons, List.map_nil, List.filter_cons, List.filter_nil]
      rw [decide_eq_true hmem]
      simp
      omega

/-- C5: an id in the resume set is classified Skipped and the loop advances
without any event — no HTTP call, no commit, no rate-limit sleep — only the
skipped counter changing; an id not in the resume set runs the per-record
pipeline and is followed by the rate-limit sleep whether it succeeded or
failed; and when the resume set is exactly the ids 1..k, a run over 1..N ends
with skipped-count k and issues the primary fetch exactly for ids k+1..N. -/
theorem c5_resume_and_rate_limit (env : Env) (loaded : List Int) :
    (∀ (pokemonId : Int) (rest : List Int) (c : Counters) (evs : List (Int × Int)),
      pokemonId ∈ loaded →
      mainLoop env loaded none (pokemonId :: rest) c evs =
        mainLoop env loaded none rest { c with skipped := c.skipped + 1 } evs) ∧
    (∀ (pokemonId : Int) (rest : List Int) (c : Counters) (evs : List (Int × Int))
      (ptr : List Ev) (res : Option (List (Int × Int))),
      pokemonId ∉ loaded →
      processTrace env pokemonId = (ptr, Except.ok res) →
      ∃ c2 evs2,
        mainLoop env loaded none (pokemonId :: rest) c evs =
          (ptr ++ (if pokemonId % 10 = 0 then [Ev.commit] else []) ++
            Ev.sleep :: (mainLoop env loaded none rest c2 evs2).1,
            (mainLoop env loaded none rest c2 evs2).2)) ∧
    (∀ (k N : Nat) (tr : List Ev) (out : Counters × List (Int × Int)),
      k ≤ N →
      (∀ j : Int, j ∈ loaded ↔ (1 ≤ j ∧ j ≤ (k : Int))) →
      mainLoop env loaded none (idRange N) ⟨0, 0, 0⟩ [] = (tr, Except.ok out) →
      out.1.skipped = k ∧
      (∀ j : Int, Ev.getPokemon j ∈ tr ↔ ((k : Int) + 1 ≤ j ∧ j ≤ (N : Int)))) := by
  refine ⟨?_, ?_, ?_⟩
  · intro pokemonId rest c evs hmem
    rw [mainLoop_skip none_ne_some0 hmem, tickInterrupt_none]
  · intro pokemonId rest c evs ptr res hnl hp
    cases res with
    | none =>
      refine ⟨{ c with failed := c.failed + 1 }, evs, ?_⟩
      have h := mainLoop_process none_ne_some0 hnl hp rest c evs rfl rfl
      rw [tickInterrupt_none] at h
      exact h
    | some lv =>
      refine ⟨{ c with success := c.success + 1 }, evs ++ lv, ?_⟩
      have h := mainLoop_process none_ne_some0 hnl hp rest c evs rfl rfl
      rw [tickInterrupt_none] at h
      exact h
  · intro k N tr out hk hiff hml
    obtain ⟨hcount, hmem⟩ := mainLoop_counts (idRange N) ⟨0, 0, 0⟩ [] hml
    constructor
    · have hlen := idRange_filter_length loaded k N hk hiff
      have hs : (⟨0, 0, 0⟩ : Counters).skipped = 0 := rfl
      omega
    · intro j
      rw [hmem j, mem_idRange, hiff]
      omega

def loadedOne : List Int := [1]

def envTwoIds : Env :=
  { pokemonHttp := fun _ => HttpResp.status 404,
    speciesHttp := fun _ => HttpResp.status 404,
    chainDoc := fun _ => none,
    countResult := some 2 }

theorem c5_resume_and_rate_limit_witness :
    mainLoop envTwoIds loadedOne none ([1, 2] : List Int) ⟨0, 0, 0⟩ [] =
      mainLoop envTwoIds loadedOne none [2] ⟨0, 1, 0⟩ [] ∧
    (⟨0, 1, 1⟩ : Counters).skipped = 1 ∧
    (∀ j : Int, Ev.getPokemon j ∈ [Ev.getPokemon 2, Ev.sleep] ↔
      ((1 : Int) + 1 ≤ j ∧ j ≤ (2 : Int))) := by
  refine ⟨?_, ?_⟩
  · exact (c5_resume_and_rate_limit envTwoIds loadedOne).1 1 [2] ⟨0, 0, 0⟩ [] (by decide)
  · exact (c5_resume_and_rate_limit envTwoIds loadedOne).2.2 1 2
      [Ev.getPokemon 2, Ev.sleep] (⟨0, 1, 1⟩, []) (by omega)
      (by intro j; unfold loadedOne; simp; omega) (by decide)

/-- C4: when the primary fetch succeeds, the per-record trace issues its two
HTTP reads and then the Record insert before any other write of that id;
replaying only through the Record insert produces a state whose resume set —
`get_loaded_pokemon_ids`, the sole completion marker the orchestrator
consults — already contains the id while the height row of the id is still
missing, and a subsequent run skips the id as if it were complete. -/
theorem c4_resume_marker_gap (env : Env) (pokemonId : Int) (db : DB)
    (doc : PokemonDoc)
    (hf : fetch_pokemon_data (env.pokemonHttp pokemonId) = some doc)
    (hh : pokemonId ∉ db.height.map Prod.fst) :
    ∃ tail out, processTrace env pokemonId =
        (Ev.getPokemon pokemonId :: Ev.getSpecies pokemonId ::
          Ev.insPokemon pokemonId doc.name :: tail, out) ∧
      Ev.insHeight pokemonId doc.height ∈ tail ∧
      pokemonId ∈ get_loaded_pokemon_ids (replay db [Ev.getPokemon pokemonId,
        Ev.getSpecies pokemonId, Ev.insPokemon pokemonId doc.name]) ∧
      pokemonId ∉ (replay db [Ev.getPokemon pokemonId, Ev.getSpecies pokemonId,
        Ev.insPokemon pokemonId doc.name]).height.map Prod.fst ∧
      (∀ (rest : List Int) (c : Counters) (evs : List (Int × Int)),
        mainLoop env (get_loaded_pokemon_ids (replay db [Ev.getPokemon pokemonId,
          Ev.getSpecies pokemonId, Ev.insPokemon pokemonId doc.name])) none
          (pokemonId :: rest) c evs =
        mainLoop env (get_loaded_pokemon_ids (replay db [Ev.getPokemon pokemonId,
          Ev.getSpecies pokemonId, Ev.insPokemon pokemonId doc.name])) none
          rest { c with skipped := c.skipped + 1 } evs) := by
  obtain ⟨tail0, out, heq, _⟩ := processTrace_fetch_some hf
  have hload : pokemonId ∈ get_loaded_pokemon_ids (replay db [Ev.getPokemon pokemonId,
      Ev.getSpecies pokemonId, Ev.insPokemon pokemonId doc.name]) := by
    show pokemonId ∈ (insert_pokemon db pokemonId doc.name).pokemon.map Prod.fst
    exact key_mem_insertOrIgnore Prod.fst (pokemonId, doc.name) db.pokemon
  refine ⟨Ev.insHeight pokemonId doc.height :: Ev.insWeight pokemonId doc.weight ::
    tail0, out, heq, List.mem_cons_self _ _, hload, hh, ?_⟩
  intro rest c evs
  rw [mainLoop_skip none_ne_some0 hload, tickInterrupt_none]

def envOneOk : Env :=
  { pokemonHttp := fun i => if i = 1 then HttpResp.ok
      { name := "bulbasaur", height := 7, weight := 69,
        types := [], stats := [], moves := [] } else HttpResp.status 404,
    speciesHttp := fun _ => HttpResp.status 404,
    chainDoc := fun _ => none,
    countResult := some 1 }

theorem c4_resume_marker_gap_witness :
    ∃ tail out, processTrace envOneOk 1 =
        (Ev.getPokemon 1 :: Ev.getSpecies 1 :: Ev.insPokemon 1 "bulbasaur" ::
          tail, out) ∧
      Ev.insHeight 1 7 ∈ tail ∧
      (1 : Int) ∈ get_loaded_pokemon_ids (replay emptyDB [Ev.getPokemon 1,
        Ev.getSpecies 1, Ev.insPokemon 1 "bulbasaur"]) ∧
      (1 : Int) ∉ (replay emptyDB [Ev.getPokemon 1, Ev.getSpecies 1,
        Ev.insPokemon 1 "bulbasaur"]).height.map Prod.fst ∧
      (∀ (rest : List Int) (c : Counters) (evs : List (Int × Int)),
        mainLoop envOneOk (get_loaded_pokemon_ids (replay emptyDB
          [Ev.getPokemon 1, Ev.getSpecies 1, Ev.insPokemon 1 "bulbasaur"])) none
          ((1 : Int) :: rest) c evs =
        mainLoop envOneOk (get_loaded_pokemon_ids (replay emptyDB
          [Ev.getPokemon 1, Ev.getSpecies 1, Ev.insPokemon 1 "bulbasaur"])) none
          rest { c with skipped := c.skipped + 1 } evs) :=
  c4_resume_marker_gap envOneOk 1 emptyDB
    { name := "bulbasaur", height := 7, weight := 69,
      types := [], stats := [], moves := [] } rfl (by decide)

theorem insert_pokemon_noop {db : DB} {i : Int} (n : String)
    (h : i ∈ db.pokemon.map Prod.fst) : insert_pokemon db i n = db := by
  obtain ⟨r, hr, hk⟩ := List.mem_map.mp h
  unfold insert_pokemon
  rw [insertOrIgnore_of_key_present Prod.fst (i, n) db.pokemon ⟨r, hr, hk⟩]

theorem insert_type_noop {db : DB} {i : Int} (n : String)
    (h : i ∈ db.types.map Prod.fst) : insert_type db i n = db := by
  obtain ⟨r, hr, hk⟩ := List.mem_map.mp h
  unfold insert_type
  rw [insertOrIgnore_of_key_present Prod.fst (i, n) db.types ⟨r, hr, hk⟩]

theorem insert_stat_noop {db : DB} {i : Int} (n : String)
    (h : i ∈ db.stats.map Prod.fst) : insert_stat db i n = db := by
  obtain ⟨r, hr, hk⟩ := List.mem_map.mp h
  unfold insert_stat
  rw [insertOrIgnore_of_key_present Prod.fst (i, n) db.stats ⟨r, hr, hk⟩]

theorem insert_move_noop {db : DB} {i : Int} (n : String)
    (h : i ∈ db.moves.map Prod.fst) : insert_move db i n = db := by
  obtain ⟨r, hr, hk⟩ := List.mem_map.mp h
  unfold insert_move
  rw [insertOrIgnore_of_key_present Prod.fst (i, n) db.moves ⟨r, hr, hk⟩]

theorem insert_dex_noop {db : DB} {i : Int} (n : String)
    (h : i ∈ db.dex.map Prod.fst) : insert_dex db i n = db := by
  obtain ⟨r, hr, hk⟩ := List.mem_map.mp h
  unfold insert_dex
  rw [insertOrIgnore_of_key_present Prod.fst (i, n) db.dex ⟨r, hr, hk⟩]

theorem insert_height_noop {db : DB} {i : Int} (v : Int)
    (h : i ∈ db.height.map Prod.fst) : insert_height db i v = db := by
  obtain ⟨r, hr, hk⟩ := List.mem_map.mp h
  unfold insert_height
  rw [insertOrIgnore_of_key_present Prod.fst (i, v) db.height ⟨r, hr, hk⟩]

theorem insert_weight_noop {db : DB} {i : Int} (v : Int)
    (h : i ∈ db.weight.map Prod.fst) : insert_weight db i v = db := by
  obtain ⟨r, hr, hk⟩ := List.mem_map.mp h
  unfold insert_weight
  rw [insertOrIgnore_of_key_present Prod.fst (i, v) db.weight ⟨r, hr, hk⟩]

theorem insert_pokemon_type_noop {db : DB} {i t : Int}
    (h : (i, t) ∈ db.pokemon_type) : insert_pokemon_type db i t = db := by
  unfold insert_pokemon_type
  rw [insertOrIgnore_of_key_present (fun r => r) (i, t) db.pokemon_type
    ⟨(i, t), h, rfl⟩]

theorem insert_pokemon_stat_noop {db : DB} {i s : Int} (v : Int)
    (h : (i, s) ∈ db.pokemon_stat.map (fun r => (r.1, r.2.1))) :
    insert_pokemon_stat db i s v = db := by
  obtain ⟨r, hr, hk⟩ := List.mem_map.mp h
  unfold insert_pokemon_stat
  rw [insertOrIgnore_of_key_present (fun r => (r.1, r.2.1)) (i, s, v)
    db.pokemon_stat ⟨r, hr, hk⟩]

theorem insert_pokemon_move_noop {db : DB} {i m : Int}
    (h : (i, m) ∈ db.pokemon_move) : insert_pokemon_move db i m = db := by
  unfold insert_pokemon_move
  rw [insertOrIgnore_of_key_present (fun r => r) (i, m) db.pokemon_move
    ⟨(i, m), h, rfl⟩]

theorem insert_pokemon_number_noop {db : DB} {i d : Int}
    (h : (i, d) ∈ db.pokemon_number) : insert_pokemon_number db i d = db := by
  unfold insert_pokemon_number
  rw [insertOrIgnore_of_key_present (fun r => r) (i, d) db.pokemon_number
    ⟨(i, d), h, rfl⟩]

theorem insert_evolution_noop {db : DB} {f t : Int}
    (h : (f, t) ∈ db.evolutions) : insert_evolution db f t = db := by
  unfold insert_evolution
  dsimp only
  split
  · rw [insertOrIgnore_of_key_present (fun r => r) (f, t) db.evolutions
      ⟨(f, t), h, rfl⟩]
  · rfl

theorem isWriteEv_frame_pre :
    ∀ e ∈ (Ev.pragmaStmt "foreign_keys = ON" :: bulk_insert), isWriteEv e = false := by
  decide

theorem isWriteEv_frame_restore :
    ∀ e ∈ restore_sqlite_settings, isWriteEv e = false := by
  decide

theorem mainRun_idempotent {env : Env} {db0 : DB} {tr1 : List Ev}
    (h1 : mainRun env db0 none = (tr1, Except.ok ())) :
    ∃ tr2, mainRun env (replay db0 tr1) none = (tr2, Except.ok ()) ∧
      replay (replay db0 tr1) tr2 = replay db0 tr1 := by
  obtain ⟨total, ltr, c, evs, hcount, hloop, htr1⟩ := mainRun_ok_inv h1
  have hdich : ∀ pid ∈ idRange total,
      pid ∈ get_loaded_pokemon_ids (replay db0 tr1) ∨
      fetch_pokemon_data (env.pokemonHttp pid) = none := by
    intro pid hpid
    by_cases hl0 : pid ∈ get_loaded_pokemon_ids db0
    · exact Or.inl (loaded_mono_replay hl0)
    · cases hfd : fetch_pokemon_data (env.pokemonHttp pid) with
      | none => exact Or.inr rfl
      | some doc =>
        refine Or.inl ?_
        have hmem := mainLoop_ok_processed (idRange total) ⟨0, 0, 0⟩ []
          hloop pid hpid hl0 hfd
        have hmem2 : Ev.insPokemon pid doc.name ∈ tr1 := by
          rw [htr1]
          simp only [List.mem_append]
          tauto
        exact loaded_of_insPokemon_mem hmem2 db0
  obtain ⟨trL2, c', hloop2, hw2⟩ := mainLoop_silent (idRange total) ⟨0, 0, 0⟩ [] hdich
  have hbody2 := mainBody_loop_ok hcount hloop2
  refine ⟨(Ev.pragmaStmt "foreign_keys = ON" :: bulk_insert) ++
    (trL2 ++ (pySetList []).map (fun e => Ev.insEvolution e.1 e.2) ++ [Ev.commit]) ++
    restore_sqlite_settings ++ [Ev.commit], ?_, ?_⟩
  · rw [mainRun_eq, hbody2]
  · apply replay_nonwrite
    intro e he
    rcases List.mem_append.mp he with h1m | h1m
    · rcases List.mem_append.mp h1m with h2m | h2m
      · rcases List.mem_append.mp h2m with h3m | h3m
        · exact isWriteEv_frame_pre e h3m
        · rcases List.mem_append.mp h3m with h4m | h4m
          · rcases List.mem_append.mp h4m with h5m | h5m
            · exact hw2 e h5m
            · exact absurd h5m (by simp [pySetList])
          · rw [List.mem_singleton.mp h4m]
            rfl
      · exact isWriteEv_frame_restore e h2m
    · rw [List.mem_singleton.mp h1m]
      rfl

/-- C2: every upsert has insert-if-absent semantics — when a row with the given
key is already present the call leaves the database unchanged (it neither
overwrites the row nor errors: all the upsert operations are total functions);
replaying any event trace preserves the duplicate-free key invariants of every
table, so re-running after an interruption never duplicates rows; and a
completed run is idempotent: running `main` a second time against the same
upstream responses succeeds and adds no row to any table. -/
theorem c2_upsert_insert_if_absent :
    (∀ (db : DB) (i : Int) (n : String), i ∈ db.pokemon.map Prod.fst →
      insert_pokemon db i n = db) ∧
    (∀ (db : DB) (i : Int) (n : String), i ∈ db.types.map Prod.fst →
      insert_type db i n = db) ∧
    (∀ (db : DB) (i : Int) (n : String), i ∈ db.stats.map Prod.fst →
      insert_stat db i n = db) ∧
    (∀ (db : DB) (i : Int) (n : String), i ∈ db.moves.map Prod.fst →
      insert_move db i n = db) ∧
    (∀ (db : DB) (i : Int) (n : String), i ∈ db.dex.map Prod.fst →
      insert_dex db i n = db) ∧
    (∀ (db : DB) (i v : Int), i ∈ db.height.map Prod.fst →
      insert_height db i v = db) ∧
    (∀ (db : DB) (i v : Int), i ∈ db.weight.map Prod.fst →
      insert_weight db i v = db) ∧
    (∀ (db : DB) (i t : Int), (i, t) ∈ db.pokemon_type →
      insert_pokemon_type db i t = db) ∧
    (∀ (db : DB) (i s v : Int), (i, s) ∈ db.pokemon_stat.map (fun r => (r.1, r.2.1)) →
      insert_pokemon_stat db i s v = db) ∧
    (∀ (db : DB) (i m : Int), (i, m) ∈ db.pokemon_move →
      insert_pokemon_move db i m = db) ∧
    (∀ (db : DB) (i d : Int), (i, d) ∈ db.pokemon_number →
      insert_pokemon_number db i d = db) ∧
    (∀ (db : DB) (f t : Int), (f, t) ∈ db.evolutions →
      insert_evolution db f t = db) ∧
    (∀ (db : DB) (tr : List Ev), DBNodup db → DBNodup (replay db tr)) ∧
    (∀ (env : Env) (db0 : DB) (tr1 : List Ev),
      mainRun env db0 none = (tr1, Except.ok ()) →
      ∃ tr2, mainRun env (replay db0 tr1) none = (tr2, Except.ok ()) ∧
        replay (replay db0 tr1) tr2 = replay db0 tr1) :=
  ⟨fun _ _ n h => insert_pokemon_noop n h,
    fun _ _ n h => insert_type_noop n h,
    fun _ _ n h => insert_stat_noop n h,
    fun _ _ n h => insert_move_noop n h,
    fun _ _ n h => insert_dex_noop n h,
    fun _ _ v h => insert_height_noop v h,
    fun _ _ v h => insert_weight_noop v h,
    fun _ _ _ h => insert_pokemon_type_noop h,
    fun _ _ _ v h => insert_pokemon_stat_noop v h,
    fun _ _ _ h => insert_pokemon_move_noop h,
    fun _ _ _ h => insert_pokemon_number_noop h,
    fun _ _ _ h => insert_evolution_noop h,
    fun _ tr h => DBNodup_replay h tr,
    fun _ _ _ h1 => mainRun_idempotent h1⟩

def dbTypesOne : DB := { emptyDB with types := [(12, "grass")] }

theorem c2_upsert_insert_if_absent_witness :
    insert_pokemon dbTwo 1 "renamed" = dbTwo ∧
    insert_type dbTypesOne 12 "renamed" = dbTypesOne ∧
    DBNodup (replay emptyDB [Ev.insPokemon 1 "bulbasaur", Ev.insPokemon 1 "dup"]) ∧
    (∃ tr2, mainRun envNotFound (replay emptyDB
        [Ev.pragmaStmt "foreign_keys = ON", Ev.pragmaStmt "synchronous = OFF",
          Ev.pragmaStmt "journal_mode = MEMORY", Ev.pragmaStmt "cache_size = 10000",
          Ev.pragmaStmt "temp_store = MEMORY", Ev.getPokemon 1, Ev.sleep, Ev.commit,
          Ev.pragmaStmt "synchronous = NORMAL", Ev.pragmaStmt "journal_mode = DELETE",
          Ev.pragmaStmt "cache_size = -2000", Ev.pragmaStmt "temp_store = DEFAULT",
          Ev.commit]) none = (tr2, Except.ok ()) ∧
      replay (replay emptyDB
        [Ev.pragmaStmt "foreign_keys = ON", Ev.pragmaStmt "synchronous = OFF",
          Ev.pragmaStmt "journal_mode = MEMORY", Ev.pragmaStmt "cache_size = 10000",
          Ev.pragmaStmt "temp_store = MEMORY", Ev.getPokemon 1, Ev.sleep, Ev.commit,
          Ev.pragmaStmt "synchronous = NORMAL", Ev.pragmaStmt "journal_mode = DELETE",
          Ev.pragmaStmt "cache_size = -2000", Ev.pragmaStmt "temp_store = DEFAULT",
          Ev.commit]) tr2 = replay emptyDB
        [Ev.pragmaStmt "foreign_keys = ON", Ev.pragmaStmt "synchronous = OFF",
          Ev.pragmaStmt "journal_mode = MEMORY", Ev.pragmaStmt "cache_size = 10000",
          Ev.pragmaStmt "temp_store = MEMORY", Ev.getPokemon 1, Ev.sleep, Ev.commit,
          Ev.pragmaStmt "synchronous = NORMAL", Ev.pragmaStmt "journal_mode = DELETE",
          Ev.pragmaStmt "cache_size = -2000", Ev.pragmaStmt "temp_store = DEFAULT",
          Ev.commit]) :=
  ⟨c2_upsert_insert_if_absent.1 dbTwo 1 "renamed" (by decide),
    c2_upsert_insert_if_absent.2.1 dbTypesOne 12 "renamed" (by decide),
    c2_upsert_insert_if_absent.2.2.2.2.2.2.2.2.2.2.2.2.1 emptyDB
      [Ev.insPokemon 1 "bulbasaur", Ev.insPokemon 1 "dup"] DBNodup_emptyDB,
    c2_upsert_insert_if_absent.2.2.2.2.2.2.2.2.2.2.2.2.2 envNotFound emptyDB _
      (by decide)⟩
